import Mathlib

/-!
A shallow embedding of `os.layer.preset.LayerPresetManager`
(file `src/src/os/layer/preset/layerpresetmanager.js`).

The module is promise-cache coordination code built on `goog.Promise`.  The
embedding makes the promise graph explicit:

* JavaScript runtime values that flow through the module are modelled by
  `JSVal` (undefined, null, strings, Error objects, arrays of preset records).
* A promise is a heap cell (`PromState`): pending with an ordered list of
  attached listeners, fulfilled with a value, or rejected with a reason.
* `goog.Promise.prototype.then(onFulfilled, onRejected)` follows Promises/A+:
  `onRejected` handles rejections of the *parent* promise only; an exception
  thrown by `onFulfilled` rejects the derived promise and is not passed to the
  `onRejected` registered in the same `then` call.  `thenAlways(cb)` invokes
  `cb` (with no arguments) once the promise settles, on either outcome.
* The callbacks appearing in the source are defunctionalized as `Handler`;
  their free variables become constructor arguments.
* External collaborators (network fetcher, `JSON.parse`, layer registry) are
  an environment `Env`; the settings store is part of the machine state.
* The event loop is a fuel-bounded worklist machine (`run` over `Task`); the
  externally visible events of a scenario are `Ev` scripts (`runEvents`).
  A settled promise is never re-settled, and cascades triggered by one
  external event run to completion before the next event, matching the
  single-threaded event-loop model described in the source's environment.
-/

namespace LayerPreset

/-- A preset record.  The module treats records as opaque payload except for
the `default` flag (see `applyDefaults`); `id` and `label` are carried along
so that distinct records can be told apart. -/
structure Preset where
  id : String
  label : String
  default : Bool
deriving DecidableEq, Repr

/-- JavaScript values that flow through the manager: `undefined`, `null`,
strings (both response bodies and error strings), Error objects (identified
by their message), arrays of preset records, and a catch-all for any other
value. -/
inductive JSVal where
  | undefined
  | nullv
  | str (s : String)
  | errObj (msg : String)
  | arr (ps : List Preset)
  | other
deriving DecidableEq, Repr

/-- The persisted settings blobs used by the module: the per-filter-key preset
lists stored under `os.layer.preset.SettingKey.PRESETS` and the applied-defaults
object stored under `os.layer.preset.SettingKey.APPLIED_DEFAULTS`.  JavaScript
objects are modelled as association lists keyed by strings. -/
structure Settings where
  presets : List (String × List Preset)
  applied : List (String × Bool)
deriving DecidableEq, Repr

/-- Association-list lookup, mirroring JavaScript property access `obj[k]`
(`none` plays the role of `undefined`). -/
def lookupL {α : Type} (m : List (String × α)) (k : String) : Option α :=
  match m with
  | [] => none
  | (k2, v) :: rest => if k2 = k then some v else lookupL rest k

/-- Association-list update, mirroring JavaScript property assignment
`obj[k] = v`. -/
def setL {α : Type} (m : List (String × α)) (k : String) (v : α) : List (String × α) :=
  match m with
  | [] => [(k, v)]
  | (k2, w) :: rest => if k2 = k then (k2, v) :: rest else (k2, w) :: setL rest k v

/-- A layer object, as far as `initPreset` inspects it: whether it implements
`os.filter.IFilterable`, and the result of `getFilterKey()` (a string or
`null`, the latter modelled as `none`). -/
structure Layer where
  isFilterable : Bool
  filterKey : Option String
deriving DecidableEq, Repr

/-- The value of the local variable `filterKey` in `initPreset`: it stays
`undefined` when the layer is absent or not filterable, and otherwise holds
`getFilterKey()`'s result (a string or `null`). -/
inductive FilterKey where
  | undefined
  | nullk
  | str (s : String)
deriving DecidableEq, Repr

/-- JavaScript coerces any property key to a string: `obj[undefined]` reads
property "undefined" and `obj[null]` reads property "null". -/
def FilterKey.toPropertyKey : FilterKey → String
  | .undefined => "undefined"
  | .nullk => "null"
  | .str s => s

/-- The external collaborators of the manager:
`fetch` is the network request for a URL (`os.net.Request`), yielding the raw
response text or a rejection reason; `parse` is `JSON.parse` restricted to the
declared payload type `Array<osx.layer.Preset>` (a JSON `null` parses to
`none`, anything unparsable throws); `getLayer` is
`os.map.mapContainer.getLayer`. -/
structure Env where
  fetch : String → Except JSVal String
  parse : String → Except JSVal (Option (List Preset))
  getLayer : String → Option Layer

/-- Defunctionalized callbacks of the source file.

* `initialParse` — `function(result) { return JSON.parse(result); }` in the
  no-prior-promise branch of `registerPreset`.
* `loadErrorH` — `this.handleLoadError`, used as a rejection callback.
* `mergeOuter type url` — `function(originalPresets) {...}` in the merge
  branch of `registerPreset`; fires the deferred request for `url`.
* `mergeInner type orig self` — the inner `function(result) {...}` of the
  merge branch; `orig` is the captured `originalPresets` and `self` the
  promise (`newPromise`) that this callback's `then` created.
* `faDone id applyDefault layerPresets target` — the `thenAlways` callback of
  `initPreset`, which resolves the promise `target` with `layerPresets`. -/
inductive Handler where
  | initialParse
  | loadErrorH
  | mergeOuter (type url : String)
  | mergeInner (type : String) (orig : JSVal) (self : Nat)
  | faDone (id : String) (applyDefault : Bool) (layerPresets : List Preset) (target : Nat)
deriving DecidableEq, Repr

/-- A listener attached to a promise: either a `then(onFulfilled, onRejected)`
pair together with the derived promise it settles, or a `thenAlways`
callback. -/
inductive Listener where
  | thenL (onFul onRej : Option Handler) (target : Nat)
  | alwaysL (h : Handler)
deriving DecidableEq, Repr

/-- The state of one promise. -/
inductive PromState where
  | pending (ls : List Listener)
  | fulfilled (v : JSVal)
  | rejected (r : JSVal)
deriving DecidableEq, Repr

/-- Worklist items of the event-loop machine.  The first four are the external
entry points (method calls and completions of external futures); `settleT` and
`fireT` are the internal microtasks they give rise to. -/
inductive Task where
  | registerT (type url : String)
  | getPresetsT (id : String) (applyDefault : Bool)
  | fetchDoneT (url : String)
  | faDoneT (id : String) (ok : Bool)
  | settleT (p : Nat) (r : Except JSVal JSVal)
  | fireT (r : Except JSVal JSVal) (l : Listener)
deriving Repr

/-- The machine state: the two maps of the manager (`presets_`, `requested_`),
the promise heap, the association of in-flight network requests and
feature-action loads to their promises, the settings store, the logger output,
and the commands executed through `os.command.VectorLayerPreset`. -/
structure St where
  nextId : Nat
  heap : Nat → PromState
  presets_ : String → Option Nat
  requested_ : String → Bool
  fetchOf : String → Option Nat
  faOf : String → Option Nat
  settings : Settings
  log : List String
  commands : List (String × Preset)

/-- Pointwise function update (used for the heap and the string-keyed maps). -/
def upd {α β : Type} [DecidableEq α] (f : α → β) (a : α) (v : β) : α → β :=
  fun x => if x = a then v else f x

/-- Allocate a fresh pending promise. -/
def alloc (st : St) : St × Nat :=
  ({ st with
      nextId := st.nextId + 1,
      heap := upd st.heap st.nextId (.pending []) },
   st.nextId)

/-- Attach a listener to promise `p`.  If `p` is still pending the listener is
queued; if `p` has already settled the listener fires (asynchronously in
JavaScript; here as an emitted task). -/
def attach (st : St) (p : Nat) (l : Listener) : St × List Task :=
  match st.heap p with
  | .pending ls => ({ st with heap := upd st.heap p (.pending (ls ++ [l])) }, [])
  | .fulfilled v => (st, [.fireT (.ok v) l])
  | .rejected r => (st, [.fireT (.error r) l])

/-- The `var msg = ...` block of `handleLoadError`: the default message,
overridden by the reason itself for strings and by `reason.message` for
Error instances. -/
def reasonMessage (reason : JSVal) : String :=
  match reason with
  | .str s => s
  | .errObj m => m
  | _ => "Unspecified error."

/-- `LayerPresetManager.prototype.handleLoadError`: normalize the rejection
reason to a message and log it. -/
def handleLoadError (st : St) (reason : JSVal) : St :=
  { st with log := st.log ++ ["Failed to load presets. Reason: " ++ reasonMessage reason] }

/-- `JSON.parse(result)` as invoked on a fulfillment value: only response
strings parse (applying `JSON.parse` to any non-string coerces it and throws a
`SyntaxError` for the values that occur here). -/
def jsonParseVal (env : Env) (v : JSVal) : Except JSVal JSVal :=
  match v with
  | .str body =>
      match env.parse body with
      | .error e => .error e
      | .ok none => .ok .nullv
      | .ok (some ps) => .ok (.arr ps)
  | _ => .error (.errObj "SyntaxError")

/-- `LayerPresetManager.prototype.applyDefaults`.  The guard is
`Array.isArray(presets) && presets.length && !applied[id]`; only inside it is
a default searched for, executed, and `applied[id]` persisted. -/
def applyDefaults (st : St) (id : String) (presets : JSVal) : St :=
  let applied := st.settings.applied
  match presets with
  | .arr ps =>
      if ps.length != 0 && !((lookupL applied id).getD false) then
        let preset := ps.find? (fun p => p.default || false)
        let st1 :=
          match preset with
          | some p => { st with commands := st.commands ++ [(id, p)] }
          | none => st
        { st1 with settings := { st1.settings with applied := setL st1.settings.applied id true } }
      else st
  | _ => st

/-- The synthetic record appended by `os.layer.preset.addDefault`. -/
def defaultPresetRecord : Preset :=
  { id := "__default__", label := "Restore Default", default := false }

/-- Modelled from the spec: `os.layer.preset.addDefault` is repository code
that is not under `src/` (only its caller is).  Per the spec it appends a
synthetic "restore to default" record to the given preset list. -/
def addDefault (ps : List Preset) : List Preset :=
  ps ++ [defaultPresetRecord]

/-- The local variable `filterKey` of `initPreset`: `undefined` unless the
layer exists and implements `os.filter.IFilterable`, in which case it is the
result of `getFilterKey()`. -/
def resolveFilterKey (env : Env) (id : String) : FilterKey :=
  match env.getLayer id with
  | some layer =>
      if layer.isFilterable then
        match layer.filterKey with
        | some s => .str s
        | none => .nullk
      else .undefined
  | none => .undefined

/-- The local variable `layerPresets` of `initPreset` right after
`presets[filterKey] || []`. -/
def storedLayerPresets (env : Env) (st : St) (id : String) : List Preset :=
  (lookupL st.settings.presets (resolveFilterKey env id).toPropertyKey).getD []

/-- The value of `layerPresets` after the `if (layerPresets.length)` block of
`initPreset` (which calls `os.layer.preset.addDefault`). -/
def initLayerPresets (env : Env) (st : St) (id : String) : List Preset :=
  let layerPresets := storedLayerPresets env st id
  if layerPresets.length != 0 then addDefault layerPresets else layerPresets

/-- `LayerPresetManager.prototype.initPreset`: read the persisted presets for
the layer's filter key, create the result promise, start the feature-action
default load for `id`, and register the `thenAlways` callback that (optionally
applying defaults) resolves the result promise with `layerPresets`.  The
result promise is stored in `presets_[id]`. -/
def initPreset (env : Env) (st : St) (id : String) (applyDefault : Bool) : St :=
  let layerPresets := initLayerPresets env st id
  let a1 := alloc st
  let p := a1.2
  let a2 := alloc a1.1
  let f := a2.2
  let st3 := { a2.1 with faOf := upd a2.1.faOf id (some f) }
  let st4 := (attach st3 f (.alwaysL (.faDone id applyDefault layerPresets p))).1
  { st4 with presets_ := upd st4.presets_ id (some p) }

/-- `LayerPresetManager.prototype.getPresets`: lazily initialize, then return
the cached promise for `id`. -/
def getPresets (env : Env) (st : St) (id : String) (applyDefault : Bool) :
    St × Option Nat :=
  let st1 := if (st.presets_ id).isNone then initPreset env st id applyDefault else st
  (st1, st1.presets_ id)

/-- `LayerPresetManager.prototype.registerPreset`.  Everything is guarded by
`!requested_[url]`.  With a prior promise for `type`, a merge is chained onto
it (`mergeOuter`); the network request itself only starts inside that
callback.  Without one, the request starts immediately and its parsed result
promise is stored in `presets_[type]`. -/
def registerPreset (st : St) (type url : String) : St × List Task :=
  let promise := st.presets_ type
  if st.requested_ url then (st, [])
  else
    let st1 := { st with requested_ := upd st.requested_ url true }
    match promise with
    | some p =>
        let a1 := alloc st1
        let d := a1.2
        attach a1.1 p (.thenL (some (.mergeOuter type url)) (some .loadErrorH) d)
    | none =>
        let a1 := alloc st1
        let f := a1.2
        let st3 := { a1.1 with fetchOf := upd a1.1.fetchOf url (some f) }
        let a2 := alloc st3
        let q := a2.2
        let r1 := attach a2.1 f (.thenL (some .initialParse) (some .loadErrorH) q)
        ({ r1.1 with presets_ := upd r1.1.presets_ type (some q) }, r1.2)

/-- Run one defunctionalized callback on its input value, producing the new
state, the callback's outcome (normal return value or thrown exception), and
any tasks it spawned. -/
def runHandler (env : Env) (st : St) (h : Handler) (v : JSVal) :
    St × Except JSVal JSVal × List Task :=
  match h with
  | .initialParse => (st, jsonParseVal env v, [])
  | .loadErrorH => (handleLoadError st v, .ok .undefined, [])
  | .mergeOuter type url =>
      let a1 := alloc st
      let f := a1.2
      let st2 := { a1.1 with fetchOf := upd a1.1.fetchOf url (some f) }
      let a2 := alloc st2
      let q := a2.2
      let r1 := attach a2.1 f (.thenL (some (.mergeInner type v q)) (some .loadErrorH) q)
      (r1.1, .ok .undefined, r1.2)
  | .mergeInner type orig self =>
      match jsonParseVal env v with
      | .error e => (st, .error e, [])
      | .ok pv =>
          let merged :=
            match pv, orig with
            | .arr ps, .arr os => JSVal.arr (ps ++ os)
            | _, _ => pv
          ({ st with presets_ := upd st.presets_ type (some self) }, .ok merged, [])
  | .faDone id applyDefault layerPresets target =>
      let st1 := if applyDefault then applyDefaults st id (.arr layerPresets) else st
      (st1, .ok .undefined, [.settleT target (.ok (.arr layerPresets))])

/-- Settled promise state for an outcome. -/
def settledState (r : Except JSVal JSVal) : PromState :=
  match r with
  | .ok v => .fulfilled v
  | .error e => .rejected e

/-- One step of the machine: execute a single task and emit its follow-up
tasks.  Settling an already-settled promise is a no-op, and completions of
unknown fetches or feature-action loads are ignored. -/
def step1 (env : Env) (st : St) (t : Task) : St × List Task :=
  match t with
  | .registerT ty url => registerPreset st ty url
  | .getPresetsT id b => ((getPresets env st id b).1, [])
  | .fetchDoneT url =>
      match st.fetchOf url with
      | some f =>
          (st, [.settleT f
            (match env.fetch url with
             | .ok body => .ok (.str body)
             | .error e => .error e)])
      | none => (st, [])
  | .faDoneT id ok =>
      match st.faOf id with
      | some f => (st, [.settleT f (if ok then .ok .undefined else .error .other)])
      | none => (st, [])
  | .settleT p r =>
      match st.heap p with
      | .pending ls =>
          ({ st with heap := upd st.heap p (settledState r) }, ls.map (.fireT r))
      | _ => (st, [])
  | .fireT r l =>
      match l with
      | .thenL onFul onRej target =>
          match r with
          | .ok v =>
              match onFul with
              | some h =>
                  let r1 := runHandler env st h v
                  (r1.1, r1.2.2 ++ [.settleT target r1.2.1])
              | none => (st, [.settleT target (.ok v)])
          | .error e =>
              match onRej with
              | some h =>
                  let r1 := runHandler env st h e
                  (r1.1, r1.2.2 ++ [.settleT target r1.2.1])
              | none => (st, [.settleT target (.error e)])
      | .alwaysL h =>
          let r1 := runHandler env st h .undefined
          (r1.1, r1.2.2)

/-- Fuel-bounded worklist execution: run tasks depth-first (a task's cascade
runs before the tasks queued after it). -/
def run (fuel : Nat) (env : Env) (st : St) (ts : List Task) : St :=
  match ts with
  | [] => st
  | t :: rest =>
      if fuel = 0 then st
      else
        let r1 := step1 env st t
        run (fuel - 1) env r1.1 (r1.2 ++ rest)
termination_by fuel
decreasing_by
  omega

/-- Externally visible events of a scenario: the two public method calls, the
completion of a network fetch, and the completion (successful or failed) of a
feature-action default load. -/
inductive Ev where
  | registerE (type url : String)
  | getPresetsE (id : String) (applyDefault : Bool)
  | fetchE (url : String)
  | faE (id : String) (ok : Bool)
deriving DecidableEq, Repr

/-- The machine task corresponding to an external event. -/
def Ev.toTask : Ev → Task
  | .registerE t u => .registerT t u
  | .getPresetsE i b => .getPresetsT i b
  | .fetchE u => .fetchDoneT u
  | .faE i o => .faDoneT i o

/-- Process a script of external events; each event's cascade gets `fuel`
worklist steps. -/
def runEvents (fuel : Nat) (env : Env) (st : St) (evs : List Ev) : St :=
  evs.foldl (fun s e => run fuel env s [e.toTask]) st

/-- The state of a freshly constructed manager over a given settings store:
both maps empty, no promises, nothing logged or executed. -/
def initSt (s : Settings) : St :=
  { nextId := 0
    heap := fun _ => .pending []
    presets_ := fun _ => none
    requested_ := fun _ => false
    fetchOf := fun _ => none
    faOf := fun _ => none
    settings := s
    log := []
    commands := [] }

/-- A sample preset that is not flagged as a default. -/
def demoPresetA : Preset :=
  { id := "a", label := "A", default := false }

/-- A sample preset flagged as the default. -/
def demoPresetB : Preset :=
  { id := "b", label := "B", default := true }

/-- A concrete environment used to instantiate the scenario theorems:
URL "u1" serves a body parsing to `[demoPresetA]`, URL "u2" serves a body
parsing to `[demoPresetB]`, every other URL fails at the network level;
layer "layer1" exists and is filterable with filter key "fk1". -/
def demoEnv : Env :=
  { fetch := fun u =>
      if u = "u1" then .ok "bodyA"
      else if u = "u2" then .ok "bodyB"
      else .error (.errObj "network")
    parse := fun s =>
      if s = "bodyA" then .ok (some [demoPresetA])
      else if s = "bodyB" then .ok (some [demoPresetB])
      else .error (.errObj "SyntaxError")
    getLayer := fun i =>
      if i = "layer1" then some { isFilterable := true, filterKey := some "fk1" }
      else none }

/-- A concrete environment in which every fetch fails at the network level
except "u1" (which succeeds but returns an unparsable body for type-"s"
scenarios), used for the failure scenarios. -/
def demoFailEnv : Env :=
  { fetch := fun u =>
      if u = "v1" then .ok "bodyA"
      else if u = "v2" then .ok "garbage"
      else .error (.errObj "network down")
    parse := fun s =>
      if s = "bodyA" then .ok (some [demoPresetA])
      else .error (.errObj "SyntaxError")
    getLayer := fun _ => none }

/-- A concrete settings store: filter key "fk1" has one stored preset and no
defaults have been applied yet.  It has no literal "undefined" or "null"
keys. -/
def demoSettings : Settings :=
  { presets := [("fk1", [demoPresetA])], applied := [] }

/-- Pending-ness of a promise state, as a decidable projection. -/
def PromState.isPending : PromState → Bool
  | .pending _ => true
  | _ => false

/-- The promise ids a handler settles or stores directly when it runs:
`mergeInner` stores `self` into the cache and `faDone` resolves `target`. -/
def Handler.targets : Handler → List Nat
  | .mergeInner _ _ self => [self]
  | .faDone _ _ _ target => [target]
  | _ => []

/-- The promise ids a listener can settle or store when fired: the derived
promise of a `then` plus the targets of its handlers. -/
def Listener.targets : Listener → List Nat
  | .thenL onFul onRej target =>
      target :: ((onFul.elim [] Handler.targets) ++ (onRej.elim [] Handler.targets))
  | .alwaysL h => h.targets

/-- Global well-formedness of a machine state: promise ids at or above
`nextId` are unallocated (pending with no listeners), and every promise id
reachable from a listener, the fetch map, the feature-action map or the cache
is already allocated. -/
structure Wf (st : St) : Prop where
  fresh : ∀ n, st.nextId ≤ n → st.heap n = .pending []
  lbound : ∀ n ls, st.heap n = .pending ls → ∀ l ∈ ls, ∀ m ∈ l.targets, m < st.nextId
  fet : ∀ u n, st.fetchOf u = some n → n < st.nextId
  fa : ∀ i n, st.faOf i = some n → n < st.nextId
  pres : ∀ s n, st.presets_ s = some n → n < st.nextId

/-- Well-formedness of an in-flight task relative to a state: any promise it
can settle or store is already allocated. -/
def TaskWf (st : St) : Task → Prop
  | .settleT p _ => p < st.nextId
  | .fireT _ l => ∀ m ∈ l.targets, m < st.nextId
  | _ => True

/-- Safety of an in-flight task with respect to the tracked promises `p`
(the preset future made by `initPreset`) and `f` (its feature-action loader
future) for layer `id`: the task cannot settle either one, directly or by
firing a listener that reaches them, and it is not the completion of the
feature-action load for `id`. -/
def SafeTask (p f : Nat) (id : String) : Task → Prop
  | .settleT n _ => n ≠ p ∧ n ≠ f
  | .fireT _ l => p ∉ l.targets ∧ f ∉ l.targets
  | .faDoneT i _ => i ≠ id
  | _ => True

/-- The tracking invariant behind the `getPresets` gating claim: `p` is the
pending preset future for layer `id`, `f` its pending feature-action future
whose sole listener is the `thenAlways` callback resolving `p` with `lp`,
and nothing else in the state can reach `p` or `f`. -/
structure Tracks (st : St) (p f : Nat) (id : String) (b : Bool) (lp : List Preset) : Prop where
  wf : Wf st
  hp : p < st.nextId
  hf : f < st.nextId
  hpf : p ≠ f
  fstate : st.heap f = .pending [.alwaysL (.faDone id b lp p)]
  pstate : ∃ ls, st.heap p = .pending ls
  others : ∀ n ls, n ≠ f → st.heap n = .pending ls →
    ∀ l ∈ ls, p ∉ l.targets ∧ f ∉ l.targets
  fet : ∀ u n, st.fetchOf u = some n → n ≠ p ∧ n ≠ f
  faSelf : st.faOf id = some f
  faOthers : ∀ i n, i ≠ id → st.faOf i = some n → n ≠ p ∧ n ≠ f
  presNoF : ∀ s n, st.presets_ s = some n → n ≠ f
  pid : (st.presets_ id).isSome

@[simp]
theorem upd_self {α β : Type} [DecidableEq α] (f : α → β) (a : α) (v : β) :
    upd f a v a = v := by
  simp [upd]

@[simp]
theorem upd_ne {α β : Type} [DecidableEq α] (f : α → β) (a : α) (v : β) (x : α)
    (h : x ≠ a) : upd f a v x = f x := by
  simp [upd, h]

theorem lookupL_setL_self {α : Type} (m : List (String × α)) (k : String) (v : α) :
    lookupL (setL m k v) k = some v := by
  induction m with
  | nil => simp [setL, lookupL]
  | cons hd tl ih =>
      obtain ⟨k2, w⟩ := hd
      by_cases hk : k2 = k
      · simp [setL, lookupL, hk]
      · simp [setL, lookupL, hk, ih]

theorem applyDefaults_marks (st : St) (id : String) (ps : List Preset) (h : ps ≠ []) :
    lookupL (applyDefaults st id (.arr ps)).settings.applied id = some true := by
  have hlen : (ps.length != 0) = true := by
    simp [bne_iff_ne, h]
  unfold applyDefaults
  cases happ : (lookupL st.settings.applied id).getD false with
  | false =>
      cases hfind : ps.find? (fun p => p.default || false) <;>
        simp [hlen, happ, hfind, lookupL_setL_self]
  | true =>
      simp only [hlen, happ, Bool.not_true, Bool.and_false, Bool.false_eq_true, if_false]
      cases hlk : lookupL st.settings.applied id with
      | none => rw [hlk] at happ; simp at happ
      | some b =>
          rw [hlk] at happ
          simp only [Option.getD_some] at happ
          rw [happ]

theorem applyDefaults_already_applied_noop (st : St) (id : String) (v : JSVal)
    (h : lookupL st.settings.applied id = some true) :
    applyDefaults st id v = st := by
  unfold applyDefaults
  cases v <;> simp [h]

/-- C4: once a call to `applyDefaults(id, presets)` with a non-empty list has
run, `id` is recorded as applied in the persisted applied-defaults state, and
a second call with any non-empty list is a complete no-op (in particular it
executes no command): a default preset is applied at most once per `id`. -/
theorem applyDefaults_at_most_once (st : St) (id : String) (ps ps2 : List Preset)
    (h : ps ≠ []) :
    lookupL (applyDefaults st id (.arr ps)).settings.applied id = some true
    ∧ applyDefaults (applyDefaults st id (.arr ps)) id (.arr ps2)
        = applyDefaults st id (.arr ps) := by
  refine ⟨applyDefaults_marks st id ps h, ?_⟩
  exact applyDefaults_already_applied_noop _ id _ (applyDefaults_marks st id ps h)

/-- Witness for C4 at a concrete input. -/
theorem applyDefaults_at_most_once_witness :
    lookupL (applyDefaults (initSt ⟨[], []⟩) "layer1"
        (.arr [demoPresetB])).settings.applied "layer1" = some true
    ∧ applyDefaults (applyDefaults (initSt ⟨[], []⟩) "layer1" (.arr [demoPresetB]))
        "layer1" (.arr [demoPresetB])
        = applyDefaults (initSt ⟨[], []⟩) "layer1" (.arr [demoPresetB]) :=
  applyDefaults_at_most_once (initSt ⟨[], []⟩) "layer1" [demoPresetB] [demoPresetB]
    (by decide)

/-- C3 counterexample: calling `applyDefaults` with an empty preset list does
NOT record the id in the persisted applied-defaults set — the marking happens
only inside the `Array.isArray(presets) && presets.length && !applied[id]`
guard, which an empty list fails.  The claim asserts the id is recorded; here
the applied map is left empty (and no command runs). -/
theorem applyDefaults_empty_does_not_mark :
    (applyDefaults (initSt ⟨[], []⟩) "layer1" (.arr [])).settings.applied = []
    ∧ ¬ (lookupL (applyDefaults (initSt ⟨[], []⟩) "layer1"
          (.arr [])).settings.applied "layer1" = some true)
    ∧ (applyDefaults (initSt ⟨[], []⟩) "layer1" (.arr [])).commands = [] := by
  refine ⟨by decide, by decide, by decide⟩

/-- C3 as amended: calling `applyDefaults(id, presets)` with an empty preset
list executes no command and leaves the whole state — in particular the
persisted applied-defaults set — unchanged; the id is NOT marked as
applied. -/
theorem applyDefaults_empty_noop (st : St) (id : String) :
    applyDefaults st id (.arr []) = st := by
  simp [applyDefaults]

/-- C10: when `applyDefaults(id, presets)` is called with an empty list, a
non-array value, or an id already recorded in the persisted applied-defaults
set, it is a complete no-op: no command is executed and nothing is written to
the settings store. -/
theorem applyDefaults_guard_frame (st : St) (id : String) (v : JSVal)
    (h : v = .arr [] ∨ (∀ ps, v ≠ .arr ps) ∨ lookupL st.settings.applied id = some true) :
    applyDefaults st id v = st := by
  rcases h with h | h | h
  · subst h; simp [applyDefaults]
  · cases v with
    | arr ps => exact absurd rfl (h ps)
    | undefined => rfl
    | nullv => rfl
    | str s => rfl
    | errObj m => rfl
    | other => rfl
  · exact applyDefaults_already_applied_noop st id v h

/-- Witness for C10 at a concrete input. -/
theorem applyDefaults_guard_frame_witness :
    applyDefaults (initSt ⟨[], []⟩) "layer1" .nullv = initSt ⟨[], []⟩ :=
  applyDefaults_guard_frame (initSt ⟨[], []⟩) "layer1" .nullv
    (Or.inr (Or.inl (by intro ps h; cases h)))

theorem attach_requested (st : St) (p : Nat) (l : Listener) :
    (attach st p l).1.requested_ = st.requested_ := by
  unfold attach
  split <;> rfl

theorem applyDefaults_frame (st : St) (id : String) (v : JSVal) :
    (applyDefaults st id v).nextId = st.nextId
    ∧ (applyDefaults st id v).heap = st.heap
    ∧ (applyDefaults st id v).presets_ = st.presets_
    ∧ (applyDefaults st id v).requested_ = st.requested_
    ∧ (applyDefaults st id v).fetchOf = st.fetchOf
    ∧ (applyDefaults st id v).faOf = st.faOf
    ∧ (applyDefaults st id v).log = st.log := by
  cases v with
  | arr ps =>
      simp only [applyDefaults]
      split
      · split <;> exact ⟨rfl, rfl, rfl, rfl, rfl, rfl, rfl⟩
      · exact ⟨rfl, rfl, rfl, rfl, rfl, rfl, rfl⟩
  | undefined => exact ⟨rfl, rfl, rfl, rfl, rfl, rfl, rfl⟩
  | nullv => exact ⟨rfl, rfl, rfl, rfl, rfl, rfl, rfl⟩
  | str s => exact ⟨rfl, rfl, rfl, rfl, rfl, rfl, rfl⟩
  | errObj m => exact ⟨rfl, rfl, rfl, rfl, rfl, rfl, rfl⟩
  | other => exact ⟨rfl, rfl, rfl, rfl, rfl, rfl, rfl⟩

theorem runHandler_requested (env : Env) (st : St) (h : Handler) (v : JSVal) :
    (runHandler env st h v).1.requested_ = st.requested_ := by
  cases h with
  | initialParse => rfl
  | loadErrorH => rfl
  | mergeOuter t u => simp [runHandler, attach_requested, alloc]
  | mergeInner t o s =>
      simp only [runHandler]
      split <;> rfl
  | faDone i b lp tg =>
      simp only [runHandler]
      split
      · exact (applyDefaults_frame st i (.arr lp)).2.2.2.1
      · rfl

theorem initPreset_requested (env : Env) (st : St) (id : String) (b : Bool) :
    (initPreset env st id b).requested_ = st.requested_ := by
  simp [initPreset, attach_requested, alloc]

theorem getPresets_requested (env : Env) (st : St) (id : String) (b : Bool) :
    (getPresets env st id b).1.requested_ = st.requested_ := by
  unfold getPresets
  split
  · exact initPreset_requested env st id b
  · rfl

theorem registerPreset_requested (st : St) (t u : String) :
    (registerPreset st t u).1.requested_ = upd st.requested_ u true := by
  unfold registerPreset
  cases hreq : st.requested_ u with
  | true =>
      simp only [hreq, if_true]
      funext x
      by_cases hx : x = u
      · subst hx; simp [hreq]
      · simp [hx]
  | false =>
      cases hp : st.presets_ t with
      | some p => simp [hreq, hp, attach_requested, alloc]
      | none => simp [hreq, hp, attach_requested, alloc]

theorem registerPreset_noop (st : St) (t u : String) (h : st.requested_ u = true) :
    registerPreset st t u = (st, []) := by
  unfold registerPreset
  simp [h]

theorem step1_requested_mono (env : Env) (st : St) (t : Task) (u : String)
    (h : st.requested_ u = true) : (step1 env st t).1.requested_ u = true := by
  cases t with
  | registerT ty url =>
      show (registerPreset st ty url).1.requested_ u = true
      rw [registerPreset_requested]
      by_cases hx : u = url
      · subst hx; simp
      · simp [hx, h]
  | getPresetsT id b =>
      show ((getPresets env st id b).1, ([] : List Task)).1.requested_ u = true
      rw [getPresets_requested]
      exact h
  | fetchDoneT url =>
      simp only [step1]
      split <;> exact h
  | faDoneT id ok =>
      simp only [step1]
      split <;> exact h
  | settleT p r =>
      simp only [step1]
      split <;> exact h
  | fireT r l =>
      cases l with
      | thenL onFul onRej tg =>
          cases r with
          | ok v =>
              cases onFul with
              | some hh => simp only [step1]; rw [runHandler_requested]; exact h
              | none => exact h
          | error e =>
              cases onRej with
              | some hh => simp only [step1]; rw [runHandler_requested]; exact h
              | none => exact h
      | alwaysL hh =>
          simp only [step1]
          rw [runHandler_requested]
          exact h

theorem run_requested_mono (fuel : Nat) (env : Env) (st : St) (ts : List Task)
    (u : String) (h : st.requested_ u = true) :
    (run fuel env st ts).requested_ u = true := by
  induction fuel generalizing st ts with
  | zero =>
      cases ts with
      | nil => simpa [run] using h
      | cons t rest => simpa [run] using h
  | succ n ih =>
      cases ts with
      | nil => simpa [run] using h
      | cons t rest =>
          rw [run]
          simp only [Nat.succ_ne_zero, if_false, Nat.succ_sub_one]
          exact ih _ _ (step1_requested_mono env st t u h)

/-- C2: for every url, once `registerPreset(type1, url)` has been called, any
later call `registerPreset(type2, url)` — whatever happened in between,
including the first fetch succeeding or failing — is a complete no-op: the
state is unchanged (so no cache entry changes) and no task is spawned (so no
second network fetch of the url is ever issued). -/
theorem registerPreset_single_fetch_per_url (env : Env) (fuel : Nat) (st : St)
    (ts : List Task) (type1 type2 url : String) :
    registerPreset (run fuel env (registerPreset st type1 url).1 ts) type2 url
      = (run fuel env (registerPreset st type1 url).1 ts, []) := by
  apply registerPreset_noop
  apply run_requested_mono
  rw [registerPreset_requested]
  simp

/-- C7 counterexample: `handleLoadError` does not log the reason itself — for
the string reason "boom" the logged message is
"Failed to load presets. Reason: boom", not "boom". -/
theorem handleLoadError_does_not_log_bare_reason :
    ¬ ((handleLoadError (initSt ⟨[], []⟩) (.str "boom")).log = ["boom"]) := by
  decide

/-- C7 as amended: `handleLoadError(reason)` logs exactly one error message —
"Failed to load presets. Reason: " followed by the reason itself when it is a
string, by the error's message when it is an Error object, and by the text
"Unspecified error." otherwise — touches nothing else in the state, and never
rethrows: as a rejection handler it returns normally (fulfilling the derived
promise with `undefined`) and spawns nothing. -/
theorem handleLoadError_logs_one_prefixed_message (st : St) (reason : JSVal) :
    (handleLoadError st reason).log =
      st.log ++ ["Failed to load presets. Reason: " ++ reasonMessage reason]
    ∧ (∀ s, reasonMessage (.str s) = s)
    ∧ (∀ m, reasonMessage (.errObj m) = m)
    ∧ reasonMessage .undefined = "Unspecified error."
    ∧ reasonMessage .nullv = "Unspecified error."
    ∧ reasonMessage (.arr []) = "Unspecified error."
    ∧ reasonMessage .other = "Unspecified error."
    ∧ (handleLoadError st reason).presets_ = st.presets_
    ∧ (handleLoadError st reason).requested_ = st.requested_
    ∧ (handleLoadError st reason).heap = st.heap
    ∧ (handleLoadError st reason).settings = st.settings
    ∧ (handleLoadError st reason).commands = st.commands
    ∧ ∀ env, runHandler env st .loadErrorH reason = (handleLoadError st reason, .ok .undefined, []) := by
  exact ⟨rfl, fun s => rfl, fun m => rfl, rfl, rfl, rfl, rfl, rfl, rfl, rfl, rfl, rfl,
    fun env => rfl⟩

/-- C1: registering presets for the same type from two different URLs, where
the first fetch's body parses to list `A` and the second fetch's body parses
to list `B`, leaves the cache entry for that type holding a future fulfilled
with `B ++ A`: the newest registration's records come first and each fetch's
internal order is preserved. -/
theorem register_merge_newest_first (env : Env) (s0 : Settings)
    (type u1 u2 b1 b2 : String) (A B : List Preset)
    (hu : u1 ≠ u2)
    (hf1 : env.fetch u1 = .ok b1) (hp1 : env.parse b1 = .ok (some A))
    (hf2 : env.fetch u2 = .ok b2) (hp2 : env.parse b2 = .ok (some B)) :
    ∃ q,
      (runEvents 32 env (initSt s0)
        [.registerE type u1, .fetchE u1, .registerE type u2, .fetchE u2]).presets_ type
        = some q
      ∧ (runEvents 32 env (initSt s0)
        [.registerE type u1, .fetchE u1, .registerE type u2, .fetchE u2]).heap q
        = .fulfilled (.arr (B ++ A)) := by
  refine ⟨4, ?_, ?_⟩ <;>
    simp [runEvents, run, step1, registerPreset, getPresets, initPreset, alloc, attach,
      runHandler, jsonParseVal, initSt, upd, Ev.toTask, settledState,
      hf1, hp1, hf2, hp2, hu, Ne.symm hu]

/-- Witness for C1 at a concrete environment. -/
theorem register_merge_newest_first_witness :
    ∃ q,
      (runEvents 32 demoEnv (initSt ⟨[], []⟩)
        [.registerE "t1" "u1", .fetchE "u1", .registerE "t1" "u2", .fetchE "u2"]).presets_ "t1"
        = some q
      ∧ (runEvents 32 demoEnv (initSt ⟨[], []⟩)
        [.registerE "t1" "u1", .fetchE "u1", .registerE "t1" "u2", .fetchE "u2"]).heap q
        = .fulfilled (.arr ([demoPresetB] ++ [demoPresetA])) :=
  register_merge_newest_first demoEnv ⟨[], []⟩ "t1" "u1" "u2" "bodyA" "bodyB"
    [demoPresetA] [demoPresetB] (by decide) rfl rfl rfl rfl

/-- C5 counterexample, refuting two parts of the claim on concrete runs of
the code.  (i) For type "t1" with no prior cache entry, `registerPreset`
installs the new future at call time; when the fetch then fails, the error
handler's return value (`undefined`) fulfills it, so `getPresets` observes an
entry resolving to `undefined` — the claim says the previously visible value
(here: absence) is left in place and never replaced by an undefined value.
(ii) For type "s1" with an existing entry, a JSON-parse failure is thrown
inside the fulfillment callback of `then(cb, handleLoadError)`; per promise
semantics the rejection callback of the same `then` is not invoked, so the
parse failure is never routed to the error handler: the log holds exactly the
one message from scenario (i). -/
theorem register_failure_claim_cx :
    (runEvents 32 demoFailEnv (initSt ⟨[], []⟩)
      [.registerE "t1" "w", .fetchE "w", .registerE "s1" "v1", .fetchE "v1",
       .registerE "s1" "v2", .fetchE "v2"]).presets_ "t1" = some 1
    ∧ (runEvents 32 demoFailEnv (initSt ⟨[], []⟩)
      [.registerE "t1" "w", .fetchE "w", .registerE "s1" "v1", .fetchE "v1",
       .registerE "s1" "v2", .fetchE "v2"]).heap 1 = .fulfilled .undefined
    ∧ (runEvents 32 demoFailEnv (initSt ⟨[], []⟩)
      [.registerE "t1" "w", .fetchE "w", .registerE "s1" "v1", .fetchE "v1",
       .registerE "s1" "v2", .fetchE "v2"]).presets_ "s1" = some 3
    ∧ (runEvents 32 demoFailEnv (initSt ⟨[], []⟩)
      [.registerE "t1" "w", .fetchE "w", .registerE "s1" "v1", .fetchE "v1",
       .registerE "s1" "v2", .fetchE "v2"]).heap 6 = .rejected (.errObj "SyntaxError")
    ∧ (runEvents 32 demoFailEnv (initSt ⟨[], []⟩)
      [.registerE "t1" "w", .fetchE "w", .registerE "s1" "v1", .fetchE "v1",
       .registerE "s1" "v2", .fetchE "v2"]).log
        = ["Failed to load presets. Reason: network down"] := by
  refine ⟨?_, ?_, ?_, ?_, ?_⟩ <;>
    simp [runEvents, run, step1, registerPreset, getPresets, initPreset, alloc, attach,
      runHandler, jsonParseVal, initSt, upd, Ev.toTask, settledState, handleLoadError,
      reasonMessage, demoFailEnv, demoPresetA]

/-- C5 as amended: when a network fetch failure occurs during a
re-registration for a type that already has a cache entry, the failure reason
is routed to the error handler (which logs one message derived from it) and
the cache entry for that type is not updated: the previously stored future,
still fulfilled with the old records, remains the entry.  (With no prior
entry the new future is installed at call time already, and a JSON-parse
failure is not routed to the handler at all — see the counterexample.) -/
theorem register_fetch_failure_keeps_stale_entry (env : Env) (s0 : Settings)
    (type u1 u2 b1 : String) (A : List Preset) (e : JSVal)
    (hu : u1 ≠ u2)
    (hf1 : env.fetch u1 = .ok b1) (hp1 : env.parse b1 = .ok (some A))
    (hf2 : env.fetch u2 = .error e) :
    (runEvents 32 env (initSt s0)
      [.registerE type u1, .fetchE u1, .registerE type u2, .fetchE u2]).presets_ type
      = some 1
    ∧ (runEvents 32 env (initSt s0)
      [.registerE type u1, .fetchE u1, .registerE type u2, .fetchE u2]).heap 1
      = .fulfilled (.arr A)
    ∧ (runEvents 32 env (initSt s0)
      [.registerE type u1, .fetchE u1, .registerE type u2, .fetchE u2]).log
      = ["Failed to load presets. Reason: " ++ reasonMessage e] := by
  refine ⟨?_, ?_, ?_⟩ <;>
    simp [runEvents, run, step1, registerPreset, getPresets, initPreset, alloc, attach,
      runHandler, jsonParseVal, initSt, upd, Ev.toTask, settledState, handleLoadError,
      hf1, hp1, hf2, hu, Ne.symm hu]

/-- Witness for the amended C5 at a concrete environment. -/
theorem register_fetch_failure_keeps_stale_entry_witness :
    (runEvents 32 demoFailEnv (initSt ⟨[], []⟩)
      [.registerE "t1" "v1", .fetchE "v1", .registerE "t1" "w", .fetchE "w"]).presets_ "t1"
      = some 1
    ∧ (runEvents 32 demoFailEnv (initSt ⟨[], []⟩)
      [.registerE "t1" "v1", .fetchE "v1", .registerE "t1" "w", .fetchE "w"]).heap 1
      = .fulfilled (.arr [demoPresetA])
    ∧ (runEvents 32 demoFailEnv (initSt ⟨[], []⟩)
      [.registerE "t1" "v1", .fetchE "v1", .registerE "t1" "w", .fetchE "w"]).log
      = ["Failed to load presets. Reason: " ++ reasonMessage (.errObj "network down")] :=
  register_fetch_failure_keeps_stale_entry demoFailEnv ⟨[], []⟩ "t1" "v1" "w" "bodyA"
    [demoPresetA] (.errObj "network down") (by decide) rfl rfl rfl

/-- C8 counterexample: when the later registration's fetch fails, the cache
entry observed by `getPresets` is NOT the most recently constructed future.
The second `registerPreset` call constructed futures 2, 3 and 4 (so `nextId`
ends at 5, and future 4 — the merged future — even settles, fulfilled with
`undefined` by the error handler), yet the entry for "t1" is still future 1
from the first registration, and that is what `getPresets` returns: the later
registration did not supersede the earlier one. -/
theorem register_supersede_cx :
    (runEvents 32 demoFailEnv (initSt ⟨[], []⟩)
      [.registerE "t1" "v1", .fetchE "v1", .registerE "t1" "w2", .fetchE "w2"]).presets_ "t1"
      = some 1
    ∧ (runEvents 32 demoFailEnv (initSt ⟨[], []⟩)
      [.registerE "t1" "v1", .fetchE "v1", .registerE "t1" "w2", .fetchE "w2"]).nextId = 5
    ∧ (runEvents 32 demoFailEnv (initSt ⟨[], []⟩)
      [.registerE "t1" "v1", .fetchE "v1", .registerE "t1" "w2", .fetchE "w2"]).heap 4
      = .fulfilled .undefined
    ∧ (getPresets demoFailEnv
        (runEvents 32 demoFailEnv (initSt ⟨[], []⟩)
          [.registerE "t1" "v1", .fetchE "v1", .registerE "t1" "w2", .fetchE "w2"])
        "t1" false).2 = some 1 := by
  refine ⟨?_, ?_, ?_, ?_⟩ <;>
    simp [runEvents, run, step1, registerPreset, getPresets, initPreset, alloc, attach,
      runHandler, jsonParseVal, initSt, upd, Ev.toTask, settledState, handleLoadError,
      demoFailEnv, demoPresetA]

/-- C8 as amended: for registrations whose fetch and parse succeed and whose
chains settle before the next registration is made (sequential processing),
the cache entry visible to `getPresets` after a registration is the future
constructed by that — the most recent successful — registration, superseding
every earlier one; a registration whose fetch fails leaves the previous entry
in place (see the counterexample). -/
theorem register_supersede_success (env : Env) (s0 : Settings)
    (type u1 u2 b1 b2 : String) (A B : List Preset)
    (hu : u1 ≠ u2)
    (hf1 : env.fetch u1 = .ok b1) (hp1 : env.parse b1 = .ok (some A))
    (hf2 : env.fetch u2 = .ok b2) (hp2 : env.parse b2 = .ok (some B)) :
    (runEvents 32 env (initSt s0) [.registerE type u1, .fetchE u1]).presets_ type = some 1
    ∧ (runEvents 32 env (initSt s0) [.registerE type u1, .fetchE u1]).nextId = 2
    ∧ ∃ q,
        (runEvents 32 env (initSt s0)
          [.registerE type u1, .fetchE u1, .registerE type u2, .fetchE u2]).presets_ type
          = some q
        ∧ (runEvents 32 env (initSt s0) [.registerE type u1, .fetchE u1]).nextId ≤ q
        ∧ (getPresets env
            (runEvents 32 env (initSt s0)
              [.registerE type u1, .fetchE u1, .registerE type u2, .fetchE u2])
            type false).2 = some q
        ∧ (runEvents 32 env (initSt s0)
            [.registerE type u1, .fetchE u1, .registerE type u2, .fetchE u2]).heap q
          = .fulfilled (.arr (B ++ A)) := by
  refine ⟨?_, ?_, 4, ?_, ?_, ?_, ?_⟩ <;>
    simp [runEvents, run, step1, registerPreset, getPresets, initPreset, alloc, attach,
      runHandler, jsonParseVal, initSt, upd, Ev.toTask, settledState,
      hf1, hp1, hf2, hp2, hu, Ne.symm hu]

/-- Witness for the amended C8 at a concrete environment. -/
theorem register_supersede_success_witness :
    (runEvents 32 demoEnv (initSt ⟨[], []⟩) [.registerE "t1" "u1", .fetchE "u1"]).presets_ "t1"
      = some 1
    ∧ (runEvents 32 demoEnv (initSt ⟨[], []⟩) [.registerE "t1" "u1", .fetchE "u1"]).nextId = 2
    ∧ ∃ q,
        (runEvents 32 demoEnv (initSt ⟨[], []⟩)
          [.registerE "t1" "u1", .fetchE "u1", .registerE "t1" "u2", .fetchE "u2"]).presets_ "t1"
          = some q
        ∧ (runEvents 32 demoEnv (initSt ⟨[], []⟩)
            [.registerE "t1" "u1", .fetchE "u1"]).nextId ≤ q
        ∧ (getPresets demoEnv
            (runEvents 32 demoEnv (initSt ⟨[], []⟩)
              [.registerE "t1" "u1", .fetchE "u1", .registerE "t1" "u2", .fetchE "u2"])
            "t1" false).2 = some q
        ∧ (runEvents 32 demoEnv (initSt ⟨[], []⟩)
            [.registerE "t1" "u1", .fetchE "u1", .registerE "t1" "u2", .fetchE "u2"]).heap q
          = .fulfilled (.arr ([demoPresetB] ++ [demoPresetA])) :=
  register_supersede_success demoEnv ⟨[], []⟩ "t1" "u1" "u2" "bodyA" "bodyB"
    [demoPresetA] [demoPresetB] (by decide) rfl rfl rfl rfl

/-- C9: `initPreset(id, b)` stores the future for `id` and registers the
feature-action listener carrying the persisted preset list resolved through
the layer's filter key, with the synthetic restore-to-default record appended
exactly when that list is non-empty; the list falls back to empty when the
layer is absent, not filterable, has a null filter key, or has nothing stored
under its key — provided the settings object carries no literal "undefined"
or "null" property keys (which JavaScript property-key coercion would
otherwise consult). -/
theorem initPreset_reads_settings (env : Env) (st : St) (id : String) (b : Bool)
    (hu : lookupL st.settings.presets "undefined" = none)
    (hn : lookupL st.settings.presets "null" = none) :
    (initPreset env st id b).presets_ id = some st.nextId
    ∧ (initPreset env st id b).faOf id = some (st.nextId + 1)
    ∧ (initPreset env st id b).heap (st.nextId + 1)
        = .pending [.alwaysL (.faDone id b
            (if storedLayerPresets env st id = [] then []
             else storedLayerPresets env st id ++ [defaultPresetRecord]) st.nextId)]
    ∧ (env.getLayer id = none → storedLayerPresets env st id = [])
    ∧ (∀ L, env.getLayer id = some L → L.isFilterable = false →
        storedLayerPresets env st id = [])
    ∧ (∀ L, env.getLayer id = some L → L.isFilterable = true → L.filterKey = none →
        storedLayerPresets env st id = [])
    ∧ (∀ L k, env.getLayer id = some L → L.isFilterable = true → L.filterKey = some k →
        storedLayerPresets env st id = (lookupL st.settings.presets k).getD []) := by
  refine ⟨?_, ?_, ?_, ?_, ?_, ?_, ?_⟩
  · simp [initPreset, alloc, attach, upd]
  · simp [initPreset, alloc, attach, upd]
  · by_cases h : storedLayerPresets env st id = []
    · simp [initPreset, alloc, attach, upd, initLayerPresets, h]
    · have hlen : (storedLayerPresets env st id).length ≠ 0 := by
        simpa [List.length_eq_zero] using h
      simp [initPreset, alloc, attach, upd, initLayerPresets, addDefault, h, hlen]
  · intro h
    simp [storedLayerPresets, resolveFilterKey, h, FilterKey.toPropertyKey, hu]
  · intro L h1 h2
    simp [storedLayerPresets, resolveFilterKey, h1, h2, FilterKey.toPropertyKey, hu]
  · intro L h1 h2 h3
    simp [storedLayerPresets, resolveFilterKey, h1, h2, h3, FilterKey.toPropertyKey, hn]
  · intro L k h1 h2 h3
    simp [storedLayerPresets, resolveFilterKey, h1, h2, h3, FilterKey.toPropertyKey]

/-- Witness for C9 at a concrete environment and settings store. -/
theorem initPreset_reads_settings_witness :
    (initPreset demoEnv (initSt demoSettings) "layer1" true).presets_ "layer1"
      = some (initSt demoSettings).nextId
    ∧ (initPreset demoEnv (initSt demoSettings) "layer1" true).faOf "layer1"
      = some ((initSt demoSettings).nextId + 1)
    ∧ (initPreset demoEnv (initSt demoSettings) "layer1" true).heap
        ((initSt demoSettings).nextId + 1)
      = .pending [.alwaysL (.faDone "layer1" true
          (if storedLayerPresets demoEnv (initSt demoSettings) "layer1" = [] then []
           else storedLayerPresets demoEnv (initSt demoSettings) "layer1"
              ++ [defaultPresetRecord]) (initSt demoSettings).nextId)]
    ∧ (demoEnv.getLayer "layer1" = none →
        storedLayerPresets demoEnv (initSt demoSettings) "layer1" = [])
    ∧ (∀ L, demoEnv.getLayer "layer1" = some L → L.isFilterable = false →
        storedLayerPresets demoEnv (initSt demoSettings) "layer1" = [])
    ∧ (∀ L, demoEnv.getLayer "layer1" = some L → L.isFilterable = true →
        L.filterKey = none →
        storedLayerPresets demoEnv (initSt demoSettings) "layer1" = [])
    ∧ (∀ L k, demoEnv.getLayer "layer1" = some L → L.isFilterable = true →
        L.filterKey = some k →
        storedLayerPresets demoEnv (initSt demoSettings) "layer1"
          = (lookupL (initSt demoSettings).settings.presets k).getD []) :=
  initPreset_reads_settings demoEnv (initSt demoSettings) "layer1" true
    (by decide) (by decide)

theorem run_nil (fuel : Nat) (env : Env) (st : St) : run fuel env st [] = st := by
  unfold run
  rfl

theorem run_cons_step (fuel : Nat) (env : Env) (st : St) (t : Task) (ts : List Task)
    (h : fuel ≠ 0) :
    run fuel env st (t :: ts)
      = run (fuel - 1) env (step1 env st t).1 ((step1 env st t).2 ++ ts) := by
  conv_lhs => unfold run
  simp [h]

theorem attach_cases (st : St) (p0 : Nat) (l : Listener) :
    (∃ ls, st.heap p0 = .pending ls
        ∧ attach st p0 l = ({ st with heap := upd st.heap p0 (.pending (ls ++ [l])) }, []))
    ∨ (∃ v, st.heap p0 = .fulfilled v ∧ attach st p0 l = (st, [.fireT (.ok v) l]))
    ∨ (∃ r, st.heap p0 = .rejected r ∧ attach st p0 l = (st, [.fireT (.error r) l])) := by
  rcases hp : st.heap p0 with ls | v | r
  · exact Or.inl ⟨ls, rfl, by unfold attach; rw [hp]⟩
  · exact Or.inr (Or.inl ⟨v, rfl, by unfold attach; rw [hp]⟩)
  · exact Or.inr (Or.inr ⟨r, rfl, by unfold attach; rw [hp]⟩)

theorem taskWf_mono (st st2 : St) (h : st.nextId ≤ st2.nextId) (t : Task)
    (hw : TaskWf st t) : TaskWf st2 t := by
  cases t with
  | settleT p r => exact lt_of_lt_of_le hw h
  | fireT r l => exact fun m hm => lt_of_lt_of_le (hw m hm) h
  | registerT a b2 => trivial
  | getPresetsT a b2 => trivial
  | fetchDoneT a => trivial
  | faDoneT a b2 => trivial

theorem runHandler_wf_all (env : Env) (st : St) (h : Handler) (v : JSVal)
    (hwf : Wf st) (hh : ∀ m ∈ h.targets, m < st.nextId) :
    Wf (runHandler env st h v).1
    ∧ st.nextId ≤ (runHandler env st h v).1.nextId
    ∧ (∀ t2 ∈ (runHandler env st h v).2.2, TaskWf (runHandler env st h v).1 t2)
    ∧ (∀ n w, st.heap n = .fulfilled w → (runHandler env st h v).1.heap n = .fulfilled w) := by
  cases h with
  | initialParse =>
      exact ⟨hwf, le_refl _, by simp [runHandler], fun n w hw => hw⟩
  | loadErrorH =>
      exact ⟨⟨hwf.fresh, hwf.lbound, hwf.fet, hwf.fa, hwf.pres⟩, le_refl _,
        by simp [runHandler], fun n w hw => hw⟩
  | mergeOuter ty u =>
      have hnext : (runHandler env st (.mergeOuter ty u) v).1.nextId = st.nextId + 2 := by
        simp [runHandler, alloc, attach, upd]
      have hheap : (runHandler env st (.mergeOuter ty u) v).1.heap
          = upd (upd (upd st.heap st.nextId (.pending [])) (st.nextId + 1) (.pending []))
              st.nextId
              (.pending [.thenL (some (.mergeInner ty v (st.nextId + 1))) (some .loadErrorH)
                (st.nextId + 1)]) := by
        simp [runHandler, alloc, attach, upd]
      have hfet : (runHandler env st (.mergeOuter ty u) v).1.fetchOf
          = upd st.fetchOf u (some st.nextId) := by
        simp [runHandler, alloc, attach, upd]
      have hpres : (runHandler env st (.mergeOuter ty u) v).1.presets_ = st.presets_ := by
        simp [runHandler, alloc, attach, upd]
      have hfa : (runHandler env st (.mergeOuter ty u) v).1.faOf = st.faOf := by
        simp [runHandler, alloc, attach, upd]
      have htasks : (runHandler env st (.mergeOuter ty u) v).2.2 = [] := by
        simp [runHandler, alloc, attach, upd]
      refine ⟨⟨?_, ?_, ?_, ?_, ?_⟩, by rw [hnext]; omega, by rw [htasks]; simp, ?_⟩
      · intro n hn
        rw [hnext] at hn
        rw [hheap, upd_ne _ _ _ _ (by omega), upd_ne _ _ _ _ (by omega),
          upd_ne _ _ _ _ (by omega)]
        exact hwf.fresh n (by omega)
      · intro n ls hls l hl m hm
        rw [hnext]
        rw [hheap] at hls
        by_cases h0 : n = st.nextId
        · subst h0
          rw [upd_self] at hls
          cases hls
          simp only [List.mem_singleton] at hl
          subst hl
          simp [Listener.targets, Handler.targets, Option.elim] at hm
          omega
        · rw [upd_ne _ _ _ _ h0] at hls
          by_cases h1 : n = st.nextId + 1
          · subst h1
            rw [upd_self] at hls
            cases hls
            simp at hl
          · rw [upd_ne _ _ _ _ h1, upd_ne _ _ _ _ h0] at hls
            have := hwf.lbound n ls hls l hl m hm
            omega
      · intro u2 n hn
        rw [hnext]
        rw [hfet] at hn
        by_cases hu : u2 = u
        · subst hu
          rw [upd_self] at hn
          cases hn
          omega
        · rw [upd_ne _ _ _ _ hu] at hn
          have := hwf.fet u2 n hn
          omega
      · intro i n hn
        rw [hnext]
        rw [hfa] at hn
        have := hwf.fa i n hn
        omega
      · intro s n hn
        rw [hnext]
        rw [hpres] at hn
        have := hwf.pres s n hn
        omega
      · intro n w hw
        have hlt : n < st.nextId := by
          by_contra hge
          rw [hwf.fresh n (by omega)] at hw
          cases hw
        rw [hheap, upd_ne _ _ _ _ (by omega), upd_ne _ _ _ _ (by omega),
          upd_ne _ _ _ _ (by omega)]
        exact hw
  | mergeInner ty o self =>
      rcases hj : jsonParseVal env v with e | pv
      · have hres : runHandler env st (.mergeInner ty o self) v = (st, .error e, []) := by
          simp [runHandler, hj]
        rw [hres]
        exact ⟨hwf, le_refl _, by simp, fun n w hw => hw⟩
      · have hnext : (runHandler env st (.mergeInner ty o self) v).1.nextId = st.nextId := by
          simp [runHandler, hj]
        have hheap : (runHandler env st (.mergeInner ty o self) v).1.heap = st.heap := by
          simp [runHandler, hj]
        have hpres : (runHandler env st (.mergeInner ty o self) v).1.presets_
            = upd st.presets_ ty (some self) := by
          simp [runHandler, hj]
        have hfet : (runHandler env st (.mergeInner ty o self) v).1.fetchOf = st.fetchOf := by
          simp [runHandler, hj]
        have hfa : (runHandler env st (.mergeInner ty o self) v).1.faOf = st.faOf := by
          simp [runHandler, hj]
        have htasks : (runHandler env st (.mergeInner ty o self) v).2.2 = [] := by
          simp [runHandler, hj]
        refine ⟨⟨?_, ?_, ?_, ?_, ?_⟩, by simp [hnext], by rw [htasks]; simp, ?_⟩
        · intro n hn
          rw [hnext] at hn
          rw [hheap]
          exact hwf.fresh n hn
        · intro n ls hls l hl m hm
          rw [hnext]
          rw [hheap] at hls
          exact hwf.lbound n ls hls l hl m hm
        · intro u2 n hn
          rw [hnext]
          rw [hfet] at hn
          exact hwf.fet u2 n hn
        · intro i n hn
          rw [hnext]
          rw [hfa] at hn
          exact hwf.fa i n hn
        · intro s n hn
          rw [hnext]
          rw [hpres] at hn
          by_cases hs : s = ty
          · subst hs
            rw [upd_self] at hn
            cases hn
            exact hh self (by simp [Handler.targets])
          · rw [upd_ne _ _ _ _ hs] at hn
            exact hwf.pres s n hn
        · intro n w hw
          rw [hheap]
          exact hw
  | faDone i2 b2 lp2 tg2 =>
      have htg : tg2 < st.nextId := hh tg2 (by simp [Handler.targets])
      have hfr := applyDefaults_frame st i2 (.arr lp2)
      have hnext : (runHandler env st (.faDone i2 b2 lp2 tg2) v).1.nextId = st.nextId := by
        by_cases hb : b2 <;> simp [runHandler, hb, hfr.1]
      have hheap : (runHandler env st (.faDone i2 b2 lp2 tg2) v).1.heap = st.heap := by
        by_cases hb : b2 <;> simp [runHandler, hb, hfr.2.1]
      have hpres : (runHandler env st (.faDone i2 b2 lp2 tg2) v).1.presets_ = st.presets_ := by
        by_cases hb : b2 <;> simp [runHandler, hb, hfr.2.2.1]
      have hfet : (runHandler env st (.faDone i2 b2 lp2 tg2) v).1.fetchOf = st.fetchOf := by
        by_cases hb : b2 <;> simp [runHandler, hb, hfr.2.2.2.2.1]
      have hfa : (runHandler env st (.faDone i2 b2 lp2 tg2) v).1.faOf = st.faOf := by
        by_cases hb : b2 <;> simp [runHandler, hb, hfr.2.2.2.2.2.1]
      have htasks : (runHandler env st (.faDone i2 b2 lp2 tg2) v).2.2
          = [.settleT tg2 (.ok (.arr lp2))] := by
        by_cases hb : b2 <;> simp [runHandler, hb]
      refine ⟨⟨?_, ?_, ?_, ?_, ?_⟩, by simp [hnext], ?_, ?_⟩
      · intro n hn
        rw [hnext] at hn
        rw [hheap]
        exact hwf.fresh n hn
      · intro n ls hls l hl m hm
        rw [hnext]
        rw [hheap] at hls
        exact hwf.lbound n ls hls l hl m hm
      · intro u2 n hn
        rw [hnext]
        rw [hfet] at hn
        exact hwf.fet u2 n hn
      · intro i n hn
        rw [hnext]
        rw [hfa] at hn
        exact hwf.fa i n hn
      · intro s n hn
        rw [hnext]
        rw [hpres] at hn
        exact hwf.pres s n hn
      · intro t2 ht2
        rw [htasks] at ht2
        simp only [List.mem_singleton] at ht2
        subst ht2
        show tg2 < (runHandler env st (.faDone i2 b2 lp2 tg2) v).1.nextId
        rw [hnext]
        exact htg
      · intro n w hw
        rw [hheap]
        exact hw

theorem registerPreset_merge_case (st : St) (ty u : String) (p0 : Nat)
    (hreq : st.requested_ u = false) (hp : st.presets_ ty = some p0) :
    registerPreset st ty u
      = attach
          { st with
              requested_ := upd st.requested_ u true,
              nextId := st.nextId + 1,
              heap := upd st.heap st.nextId (.pending []) }
          p0 (.thenL (some (.mergeOuter ty u)) (some .loadErrorH) st.nextId) := by
  simp [registerPreset, hreq, hp, alloc]

theorem registerPreset_initial_case (st : St) (ty u : String)
    (hreq : st.requested_ u = false) (hp : st.presets_ ty = none) :
    registerPreset st ty u
      = ({ st with
            requested_ := upd st.requested_ u true,
            nextId := st.nextId + 2,
            heap := upd (upd (upd st.heap st.nextId (.pending [])) (st.nextId + 1)
                (.pending []))
              st.nextId
              (.pending [.thenL (some .initialParse) (some .loadErrorH) (st.nextId + 1)]),
            fetchOf := upd st.fetchOf u (some st.nextId),
            presets_ := upd st.presets_ ty (some (st.nextId + 1)) }, []) := by
  simp [registerPreset, hreq, hp, alloc, attach, upd]

theorem initPreset_case (env : Env) (st : St) (i2 : String) (b2 : Bool) :
    initPreset env st i2 b2
      = { st with
            nextId := st.nextId + 2,
            heap := upd (upd (upd st.heap st.nextId (.pending [])) (st.nextId + 1)
                (.pending []))
              (st.nextId + 1)
              (.pending [.alwaysL (.faDone i2 b2 (initLayerPresets env st i2) st.nextId)]),
            faOf := upd st.faOf i2 (some (st.nextId + 1)),
            presets_ := upd st.presets_ i2 (some st.nextId) } := by
  simp [initPreset, alloc, attach, upd]

theorem step1_wf_all (env : Env) (st : St) (t : Task)
    (hwf : Wf st) (htw : TaskWf st t) :
    Wf (step1 env st t).1
    ∧ st.nextId ≤ (step1 env st t).1.nextId
    ∧ (∀ t2 ∈ (step1 env st t).2, TaskWf (step1 env st t).1 t2)
    ∧ (∀ n w, st.heap n = .fulfilled w → (step1 env st t).1.heap n = .fulfilled w) := by
  cases t with
  | registerT ty u =>
      have hstep0 : step1 env st (.registerT ty u) = registerPreset st ty u := rfl
      rw [hstep0]
      cases hreq : st.requested_ u with
      | true =>
          rw [registerPreset_noop st ty u hreq]
          exact ⟨hwf, le_refl _, by simp, fun n w hw => hw⟩
      | false =>
          cases hp : st.presets_ ty with
          | some p0 =>
              have hp0 : p0 < st.nextId := hwf.pres ty p0 hp
              have hcase := registerPreset_merge_case st ty u p0 hreq hp
              rcases attach_cases
                  { st with
                      requested_ := upd st.requested_ u true,
                      nextId := st.nextId + 1,
                      heap := upd st.heap st.nextId (.pending []) }
                  p0 (.thenL (some (.mergeOuter ty u)) (some .loadErrorH) st.nextId) with
                ⟨ls, hls, heq⟩ | ⟨v2, hv, heq⟩ | ⟨r2, hv, heq⟩
              · rw [hcase, heq]
                have hls2 : st.heap p0 = .pending ls := by
                  have : upd st.heap st.nextId (.pending []) p0 = st.heap p0 :=
                    upd_ne _ _ _ _ (by omega)
                  rw [← this]
                  exact hls
                refine ⟨⟨?_, ?_, ?_, ?_, ?_⟩, Nat.le_add_right st.nextId 1, by simp, ?_⟩
                · intro n hn
                  have hn2 : st.nextId + 1 ≤ n := hn
                  show upd (upd st.heap st.nextId (.pending [])) p0 _ n = _
                  rw [upd_ne _ _ _ _ (by omega), upd_ne _ _ _ _ (by omega)]
                  exact hwf.fresh n (by omega)
                · intro n ls2 hls3 l hl m hm
                  show m < st.nextId + 1
                  have hls4 : upd (upd st.heap st.nextId (.pending [])) p0
                      (.pending (ls ++ [.thenL (some (.mergeOuter ty u)) (some .loadErrorH)
                        st.nextId])) n = .pending ls2 := hls3
                  by_cases h0 : n = p0
                  · subst h0
                    rw [upd_self] at hls4
                    cases hls4
                    rcases List.mem_append.mp hl with hl2 | hl2
                    · have := hwf.lbound n ls hls2 l hl2 m hm
                      omega
                    · simp only [List.mem_singleton] at hl2
                      subst hl2
                      simp [Listener.targets, Handler.targets, Option.elim] at hm
                      omega
                  · rw [upd_ne _ _ _ _ h0] at hls4
                    by_cases h1 : n = st.nextId
                    · subst h1
                      rw [upd_self] at hls4
                      cases hls4
                      simp at hl
                    · rw [upd_ne _ _ _ _ h1] at hls4
                      have := hwf.lbound n ls2 hls4 l hl m hm
                      omega
                · intro u2 n hn
                  show n < st.nextId + 1
                  have := hwf.fet u2 n hn
                  omega
                · intro i n hn
                  show n < st.nextId + 1
                  have := hwf.fa i n hn
                  omega
                · intro s n hn
                  show n < st.nextId + 1
                  have := hwf.pres s n hn
                  omega
                · intro n w hw
                  have hlt : n < st.nextId := by
                    by_contra hge
                    rw [hwf.fresh n (by omega)] at hw
                    cases hw
                  have hnp : n ≠ p0 := by
                    intro hnp
                    subst hnp
                    rw [hls2] at hw
                    cases hw
                  show upd (upd st.heap st.nextId (.pending [])) p0 _ n = _
                  rw [upd_ne _ _ _ _ hnp, upd_ne _ _ _ _ (by omega)]
                  exact hw
              · rw [hcase, heq]
                refine ⟨⟨?_, ?_, ?_, ?_, ?_⟩, Nat.le_add_right st.nextId 1, ?_, ?_⟩
                · intro n hn
                  have hn2 : st.nextId + 1 ≤ n := hn
                  show upd st.heap st.nextId (.pending []) n = _
                  rw [upd_ne _ _ _ _ (by omega)]
                  exact hwf.fresh n (by omega)
                · intro n ls2 hls3 l hl m hm
                  show m < st.nextId + 1
                  have hls4 : upd st.heap st.nextId (.pending []) n = .pending ls2 := hls3
                  by_cases h1 : n = st.nextId
                  · subst h1
                    rw [upd_self] at hls4
                    cases hls4
                    simp at hl
                  · rw [upd_ne _ _ _ _ h1] at hls4
                    have := hwf.lbound n ls2 hls4 l hl m hm
                    omega
                · intro u2 n hn
                  show n < st.nextId + 1
                  have := hwf.fet u2 n hn
                  omega
                · intro i n hn
                  show n < st.nextId + 1
                  have := hwf.fa i n hn
                  omega
                · intro s n hn
                  show n < st.nextId + 1
                  have := hwf.pres s n hn
                  omega
                · intro t2 ht2
                  simp only [List.mem_singleton] at ht2
                  subst ht2
                  intro m hm
                  simp [Listener.targets, Handler.targets, Option.elim] at hm
                  show m < st.nextId + 1
                  omega
                · intro n w hw
                  show upd st.heap st.nextId (.pending []) n = _
                  have hlt : n < st.nextId := by
                    by_contra hge
                    rw [hwf.fresh n (by omega)] at hw
                    cases hw
                  rw [upd_ne _ _ _ _ (by omega)]
                  exact hw
              · rw [hcase, heq]
                refine ⟨⟨?_, ?_, ?_, ?_, ?_⟩, Nat.le_add_right st.nextId 1, ?_, ?_⟩
                · intro n hn
                  have hn2 : st.nextId + 1 ≤ n := hn
                  show upd st.heap st.nextId (.pending []) n = _
                  rw [upd_ne _ _ _ _ (by omega)]
                  exact hwf.fresh n (by omega)
                · intro n ls2 hls3 l hl m hm
                  show m < st.nextId + 1
                  have hls4 : upd st.heap st.nextId (.pending []) n = .pending ls2 := hls3
                  by_cases h1 : n = st.nextId
                  · subst h1
                    rw [upd_self] at hls4
                    cases hls4
                    simp at hl
                  · rw [upd_ne _ _ _ _ h1] at hls4
                    have := hwf.lbound n ls2 hls4 l hl m hm
                    omega
                · intro u2 n hn
                  show n < st.nextId + 1
                  have := hwf.fet u2 n hn
                  omega
                · intro i n hn
                  show n < st.nextId + 1
                  have := hwf.fa i n hn
                  omega
                · intro s n hn
                  show n < st.nextId + 1
                  have := hwf.pres s n hn
                  omega
                · intro t2 ht2
                  simp only [List.mem_singleton] at ht2
                  subst ht2
                  intro m hm
                  simp [Listener.targets, Handler.targets, Option.elim] at hm
                  show m < st.nextId + 1
                  omega
                · intro n w hw
                  show upd st.heap st.nextId (.pending []) n = _
                  have hlt : n < st.nextId := by
                    by_contra hge
                    rw [hwf.fresh n (by omega)] at hw
                    cases hw
                  rw [upd_ne _ _ _ _ (by omega)]
                  exact hw
          | none =>
              have hcase := registerPreset_initial_case st ty u hreq hp
              rw [hcase]
              refine ⟨⟨?_, ?_, ?_, ?_, ?_⟩, Nat.le_add_right st.nextId 2, by simp, ?_⟩
              · intro n hn
                have hn2 : st.nextId + 2 ≤ n := hn
                show upd (upd (upd st.heap st.nextId (.pending [])) (st.nextId + 1)
                    (.pending [])) st.nextId _ n = _
                rw [upd_ne _ _ _ _ (by omega), upd_ne _ _ _ _ (by omega),
                  upd_ne _ _ _ _ (by omega)]
                exact hwf.fresh n (by omega)
              · intro n ls hls l hl m hm
                show m < st.nextId + 2
                have hls4 : upd (upd (upd st.heap st.nextId (.pending [])) (st.nextId + 1)
                    (.pending [])) st.nextId
                    (.pending [.thenL (some .initialParse) (some .loadErrorH)
                      (st.nextId + 1)]) n = .pending ls := hls
                by_cases h0 : n = st.nextId
                · subst h0
                  rw [upd_self] at hls4
                  cases hls4
                  simp only [List.mem_singleton] at hl
                  subst hl
                  simp [Listener.targets, Handler.targets, Option.elim] at hm
                  omega
                · rw [upd_ne _ _ _ _ h0] at hls4
                  by_cases h1 : n = st.nextId + 1
                  · subst h1
                    rw [upd_self] at hls4
                    cases hls4
                    simp at hl
                  · rw [upd_ne _ _ _ _ h1, upd_ne _ _ _ _ h0] at hls4
                    have := hwf.lbound n ls hls4 l hl m hm
                    omega
              · intro u2 n hn
                show n < st.nextId + 2
                have hn2 : upd st.fetchOf u (some st.nextId) u2 = some n := hn
                by_cases hu : u2 = u
                · subst hu
                  rw [upd_self] at hn2
                  cases hn2
                  omega
                · rw [upd_ne _ _ _ _ hu] at hn2
                  have := hwf.fet u2 n hn2
                  omega
              · intro i n hn
                show n < st.nextId + 2
                have hn2 : st.faOf i = some n := hn
                have := hwf.fa i n hn2
                omega
              · intro s n hn
                show n < st.nextId + 2
                have hn2 : upd st.presets_ ty (some (st.nextId + 1)) s = some n := hn
                by_cases hs : s = ty
                · subst hs
                  rw [upd_self] at hn2
                  cases hn2
                  omega
                · rw [upd_ne _ _ _ _ hs] at hn2
                  have := hwf.pres s n hn2
                  omega
              · intro n w hw
                have hlt : n < st.nextId := by
                  by_contra hge
                  rw [hwf.fresh n (by omega)] at hw
                  cases hw
                show upd (upd (upd st.heap st.nextId (.pending [])) (st.nextId + 1)
                    (.pending [])) st.nextId _ n = _
                rw [upd_ne _ _ _ _ (by omega), upd_ne _ _ _ _ (by omega),
                  upd_ne _ _ _ _ (by omega)]
                exact hw
  | getPresetsT i2 b2 =>
      have hstep : (step1 env st (.getPresetsT i2 b2))
          = ((getPresets env st i2 b2).1, []) := rfl
      rw [hstep]
      cases hpp : st.presets_ i2 with
      | some q =>
          have hg : (getPresets env st i2 b2).1 = st := by
            simp [getPresets, hpp]
          rw [hg]
          exact ⟨hwf, le_refl _, by simp, fun n w hw => hw⟩
      | none =>
          have hg : (getPresets env st i2 b2).1 = initPreset env st i2 b2 := by
            simp [getPresets, hpp]
          rw [hg, initPreset_case]
          refine ⟨⟨?_, ?_, ?_, ?_, ?_⟩, Nat.le_add_right st.nextId 2, by simp, ?_⟩
          · intro n hn
            have hn2 : st.nextId + 2 ≤ n := hn
            show upd (upd (upd st.heap st.nextId (.pending [])) (st.nextId + 1)
                (.pending [])) (st.nextId + 1) _ n = _
            rw [upd_ne _ _ _ _ (by omega), upd_ne _ _ _ _ (by omega),
              upd_ne _ _ _ _ (by omega)]
            exact hwf.fresh n (by omega)
          · intro n ls hls l hl m hm
            show m < st.nextId + 2
            have hls4 : upd (upd (upd st.heap st.nextId (.pending [])) (st.nextId + 1)
                (.pending [])) (st.nextId + 1)
                (.pending [.alwaysL (.faDone i2 b2 (initLayerPresets env st i2)
                  st.nextId)]) n = .pending ls := hls
            by_cases h1 : n = st.nextId + 1
            · subst h1
              rw [upd_self] at hls4
              cases hls4
              simp only [List.mem_singleton] at hl
              subst hl
              simp [Listener.targets, Handler.targets] at hm
              omega
            · rw [upd_ne _ _ _ _ h1] at hls4
              by_cases h0 : n = st.nextId
              · subst h0
                rw [upd_ne _ _ _ _ (by omega), upd_self] at hls4
                cases hls4
                simp at hl
              · rw [upd_ne _ _ _ _ h1, upd_ne _ _ _ _ h0] at hls4
                have := hwf.lbound n ls hls4 l hl m hm
                omega
          · intro u2 n hn
            show n < st.nextId + 2
            have hn2 : st.fetchOf u2 = some n := hn
            have := hwf.fet u2 n hn2
            omega
          · intro i n hn
            show n < st.nextId + 2
            have hn2 : upd st.faOf i2 (some (st.nextId + 1)) i = some n := hn
            by_cases hi : i = i2
            · subst hi
              rw [upd_self] at hn2
              cases hn2
              omega
            · rw [upd_ne _ _ _ _ hi] at hn2
              have := hwf.fa i n hn2
              omega
          · intro s n hn
            show n < st.nextId + 2
            have hn2 : upd st.presets_ i2 (some st.nextId) s = some n := hn
            by_cases hs : s = i2
            · subst hs
              rw [upd_self] at hn2
              cases hn2
              omega
            · rw [upd_ne _ _ _ _ hs] at hn2
              have := hwf.pres s n hn2
              omega
          · intro n w hw
            have hlt : n < st.nextId := by
              by_contra hge
              rw [hwf.fresh n (by omega)] at hw
              cases hw
            show upd (upd (upd st.heap st.nextId (.pending [])) (st.nextId + 1)
                (.pending [])) (st.nextId + 1) _ n = _
            rw [upd_ne _ _ _ _ (by omega), upd_ne _ _ _ _ (by omega),
              upd_ne _ _ _ _ (by omega)]
            exact hw
  | fetchDoneT u =>
      cases hf2 : st.fetchOf u with
      | some q =>
          have hstep : step1 env st (.fetchDoneT u)
              = (st, [.settleT q
                  (match env.fetch u with
                   | .ok body => .ok (.str body)
                   | .error e => .error e)]) := by
            simp [step1, hf2]
          rw [hstep]
          refine ⟨hwf, le_refl _, ?_, fun n w hw => hw⟩
          intro t2 ht2
          simp only [List.mem_singleton] at ht2
          subst ht2
          exact hwf.fet u q hf2
      | none =>
          have hstep : step1 env st (.fetchDoneT u) = (st, []) := by
            simp [step1, hf2]
          rw [hstep]
          exact ⟨hwf, le_refl _, by simp, fun n w hw => hw⟩
  | faDoneT i2 ok =>
      cases hf2 : st.faOf i2 with
      | some q =>
          have hstep : step1 env st (.faDoneT i2 ok)
              = (st, [.settleT q (if ok then .ok .undefined else .error .other)]) := by
            simp [step1, hf2]
          rw [hstep]
          refine ⟨hwf, le_refl _, ?_, fun n w hw => hw⟩
          intro t2 ht2
          simp only [List.mem_singleton] at ht2
          subst ht2
          exact hwf.fa i2 q hf2
      | none =>
          have hstep : step1 env st (.faDoneT i2 ok) = (st, []) := by
            simp [step1, hf2]
          rw [hstep]
          exact ⟨hwf, le_refl _, by simp, fun n w hw => hw⟩
  | settleT q r =>
      cases hq : st.heap q with
      | pending ls =>
          have hstep : step1 env st (.settleT q r)
              = ({ st with heap := upd st.heap q (settledState r) },
                 ls.map (.fireT r)) := by
            simp [step1, hq]
          rw [hstep]
          refine ⟨⟨?_, ?_, ?_, ?_, ?_⟩, le_refl _, ?_, ?_⟩
          · intro n hn
            have hn2 : st.nextId ≤ n := hn
            show upd st.heap q (settledState r) n = _
            have hqlt : q < st.nextId := htw
            rw [upd_ne _ _ _ _ (by omega)]
            exact hwf.fresh n hn2
          · intro n ls2 hls l hl m hm
            show m < st.nextId
            have hls4 : upd st.heap q (settledState r) n = .pending ls2 := hls
            by_cases h0 : n = q
            · subst h0
              rw [upd_self] at hls4
              cases hr : r <;> rw [hr] at hls4 <;> simp [settledState] at hls4
            · rw [upd_ne _ _ _ _ h0] at hls4
              exact hwf.lbound n ls2 hls4 l hl m hm
          · exact hwf.fet
          · exact hwf.fa
          · exact hwf.pres
          · intro t2 ht2
            rcases List.mem_map.mp ht2 with ⟨l, hl, rfl⟩
            intro m hm
            exact hwf.lbound q ls hq l hl m hm
          · intro n w hw
            have hnq : n ≠ q := by
              intro hnq
              subst hnq
              rw [hq] at hw
              cases hw
            show upd st.heap q (settledState r) n = _
            rw [upd_ne _ _ _ _ hnq]
            exact hw
      | fulfilled v2 =>
          have hstep : step1 env st (.settleT q r) = (st, []) := by
            simp [step1, hq]
          rw [hstep]
          exact ⟨hwf, le_refl _, by simp, fun n w hw => hw⟩
      | rejected r2 =>
          have hstep : step1 env st (.settleT q r) = (st, []) := by
            simp [step1, hq]
          rw [hstep]
          exact ⟨hwf, le_refl _, by simp, fun n w hw => hw⟩
  | fireT r l =>
      cases l with
      | thenL onFul onRej tg =>
          have htg : tg < st.nextId := htw tg (by simp [Listener.targets])
          cases r with
          | ok v2 =>
              cases onFul with
              | some h2 =>
                  have hsub : ∀ m ∈ h2.targets, m < st.nextId := by
                    intro m hm
                    refine htw m ?_
                    simp [Listener.targets, Option.elim]
                    exact Or.inr (Or.inl hm)
                  have hrh := runHandler_wf_all env st h2 v2 hwf hsub
                  have hstep1 : (step1 env st (.fireT (.ok v2)
                      (.thenL (some h2) onRej tg))).1 = (runHandler env st h2 v2).1 := rfl
                  have hstep2 : (step1 env st (.fireT (.ok v2)
                      (.thenL (some h2) onRej tg))).2
                      = (runHandler env st h2 v2).2.2
                        ++ [.settleT tg (runHandler env st h2 v2).2.1] := rfl
                  rw [hstep1, hstep2]
                  refine ⟨hrh.1, hrh.2.1, ?_, hrh.2.2.2⟩
                  intro t2 ht2
                  rcases List.mem_append.mp ht2 with ht3 | ht3
                  · exact hrh.2.2.1 t2 ht3
                  · simp only [List.mem_singleton] at ht3
                    subst ht3
                    show tg < (runHandler env st h2 v2).1.nextId
                    omega
              | none =>
                  have hstep : step1 env st (.fireT (.ok v2) (.thenL none onRej tg))
                      = (st, [.settleT tg (.ok v2)]) := rfl
                  rw [hstep]
                  refine ⟨hwf, le_refl _, ?_, fun n w hw => hw⟩
                  intro t2 ht2
                  simp only [List.mem_singleton] at ht2
                  subst ht2
                  exact htg
          | error e =>
              cases onRej with
              | some h2 =>
                  have hsub : ∀ m ∈ h2.targets, m < st.nextId := by
                    intro m hm
                    refine htw m ?_
                    simp [Listener.targets, Option.elim]
                    exact Or.inr (Or.inr hm)
                  have hrh := runHandler_wf_all env st h2 e hwf hsub
                  have hstep1 : (step1 env st (.fireT (.error e)
                      (.thenL onFul (some h2) tg))).1 = (runHandler env st h2 e).1 := by
                    cases onFul <;> rfl
                  have hstep2 : (step1 env st (.fireT (.error e)
                      (.thenL onFul (some h2) tg))).2
                      = (runHandler env st h2 e).2.2
                        ++ [.settleT tg (runHandler env st h2 e).2.1] := by
                    cases onFul <;> rfl
                  rw [hstep1, hstep2]
                  refine ⟨hrh.1, hrh.2.1, ?_, hrh.2.2.2⟩
                  intro t2 ht2
                  rcases List.mem_append.mp ht2 with ht3 | ht3
                  · exact hrh.2.2.1 t2 ht3
                  · simp only [List.mem_singleton] at ht3
                    subst ht3
                    show tg < (runHandler env st h2 e).1.nextId
                    omega
              | none =>
                  have hstep : step1 env st (.fireT (.error e) (.thenL onFul none tg))
                      = (st, [.settleT tg (.error e)]) := by
                    cases onFul <;> rfl
                  rw [hstep]
                  refine ⟨hwf, le_refl _, ?_, fun n w hw => hw⟩
                  intro t2 ht2
                  simp only [List.mem_singleton] at ht2
                  subst ht2
                  exact htg
      | alwaysL h2 =>
          have hsub : ∀ m ∈ h2.targets, m < st.nextId := by
            intro m hm
            exact htw m (by simp [Listener.targets]; exact hm)
          have hrh := runHandler_wf_all env st h2 .undefined hwf hsub
          have hstep1 : (step1 env st (.fireT r (.alwaysL h2))).1
              = (runHandler env st h2 .undefined).1 := by
            cases r <;> rfl
          have hstep2 : (step1 env st (.fireT r (.alwaysL h2))).2
              = (runHandler env st h2 .undefined).2.2 := by
            cases r <;> rfl
          rw [hstep1, hstep2]
          exact ⟨hrh.1, hrh.2.1, hrh.2.2.1, hrh.2.2.2⟩

theorem runHandler_tracks (env : Env) (st : St) (h2 : Handler) (v : JSVal)
    (p f : Nat) (id : String) (b : Bool) (lp : List Preset)
    (ht : Tracks st p f id b lp)
    (hsp : p ∉ h2.targets) (hsf : f ∉ h2.targets)
    (hbound : ∀ m ∈ h2.targets, m < st.nextId) :
    Tracks (runHandler env st h2 v).1 p f id b lp
    ∧ ∀ t2 ∈ (runHandler env st h2 v).2.2, SafeTask p f id t2 := by
  have hwfall := runHandler_wf_all env st h2 v ht.wf hbound
  cases h2 with
  | initialParse =>
      exact ⟨ht, by simp [runHandler]⟩
  | loadErrorH =>
      refine ⟨⟨hwfall.1, ht.hp, ht.hf, ht.hpf, ht.fstate, ht.pstate, ht.others, ht.fet,
        ht.faSelf, ht.faOthers, ht.presNoF, ht.pid⟩, by simp [runHandler]⟩
  | mergeOuter ty u =>
      have hnext : (runHandler env st (.mergeOuter ty u) v).1.nextId = st.nextId + 2 := by
        simp [runHandler, alloc, attach, upd]
      have hheap : (runHandler env st (.mergeOuter ty u) v).1.heap
          = upd (upd (upd st.heap st.nextId (.pending [])) (st.nextId + 1) (.pending []))
              st.nextId
              (.pending [.thenL (some (.mergeInner ty v (st.nextId + 1))) (some .loadErrorH)
                (st.nextId + 1)]) := by
        simp [runHandler, alloc, attach, upd]
      have hfet : (runHandler env st (.mergeOuter ty u) v).1.fetchOf
          = upd st.fetchOf u (some st.nextId) := by
        simp [runHandler, alloc, attach, upd]
      have hpres : (runHandler env st (.mergeOuter ty u) v).1.presets_ = st.presets_ := by
        simp [runHandler, alloc, attach, upd]
      have hfa : (runHandler env st (.mergeOuter ty u) v).1.faOf = st.faOf := by
        simp [runHandler, alloc, attach, upd]
      have htasks : (runHandler env st (.mergeOuter ty u) v).2.2 = [] := by
        simp [runHandler, alloc, attach, upd]
      have hp2 := ht.hp
      have hf2 := ht.hf
      refine ⟨⟨hwfall.1, ?_, ?_, ht.hpf, ?_, ?_, ?_, ?_, ?_, ?_, ?_, ?_⟩,
        by rw [htasks]; simp⟩
      · rw [hnext]; omega
      · rw [hnext]; omega
      · rw [hheap, upd_ne _ _ _ _ (by omega), upd_ne _ _ _ _ (by omega),
          upd_ne _ _ _ _ (by omega)]
        exact ht.fstate
      · rcases ht.pstate with ⟨ls, hls⟩
        exact ⟨ls, by
          rw [hheap, upd_ne _ _ _ _ (by omega), upd_ne _ _ _ _ (by omega),
            upd_ne _ _ _ _ (by omega)]
          exact hls⟩
      · intro n ls hnf hls l hl
        rw [hheap] at hls
        by_cases h0 : n = st.nextId
        · subst h0
          rw [upd_self] at hls
          cases hls
          simp only [List.mem_singleton] at hl
          subst hl
          constructor
          · simp [Listener.targets, Handler.targets, Option.elim]
            omega
          · simp [Listener.targets, Handler.targets, Option.elim]
            omega
        · rw [upd_ne _ _ _ _ h0] at hls
          by_cases h1 : n = st.nextId + 1
          · subst h1
            rw [upd_self] at hls
            cases hls
            simp at hl
          · rw [upd_ne _ _ _ _ h1, upd_ne _ _ _ _ h0] at hls
            exact ht.others n ls hnf hls l hl
      · intro u2 n hn
        rw [hfet] at hn
        by_cases hu : u2 = u
        · subst hu
          rw [upd_self] at hn
          cases hn
          omega
        · rw [upd_ne _ _ _ _ hu] at hn
          exact ht.fet u2 n hn
      · rw [hfa]; exact ht.faSelf
      · intro i n hi hn
        rw [hfa] at hn
        exact ht.faOthers i n hi hn
      · intro s n hn
        rw [hpres] at hn
        exact ht.presNoF s n hn
      · rw [hpres]; exact ht.pid
  | mergeInner ty o self =>
      have hsp2 : self ≠ p := by
        intro h
        exact hsp (by simp [Handler.targets, h])
      have hsf2 : self ≠ f := by
        intro h
        exact hsf (by simp [Handler.targets, h])
      rcases hj : jsonParseVal env v with e | pv
      · have hres : runHandler env st (.mergeInner ty o self) v = (st, .error e, []) := by
          simp [runHandler, hj]
        rw [hres]
        exact ⟨ht, by simp⟩
      · have hnext : (runHandler env st (.mergeInner ty o self) v).1.nextId = st.nextId := by
          simp [runHandler, hj]
        have hheap : (runHandler env st (.mergeInner ty o self) v).1.heap = st.heap := by
          simp [runHandler, hj]
        have hpres : (runHandler env st (.mergeInner ty o self) v).1.presets_
            = upd st.presets_ ty (some self) := by
          simp [runHandler, hj]
        have hfet : (runHandler env st (.mergeInner ty o self) v).1.fetchOf = st.fetchOf := by
          simp [runHandler, hj]
        have hfa : (runHandler env st (.mergeInner ty o self) v).1.faOf = st.faOf := by
          simp [runHandler, hj]
        have htasks : (runHandler env st (.mergeInner ty o self) v).2.2 = [] := by
          simp [runHandler, hj]
        refine ⟨⟨hwfall.1, ?_, ?_, ht.hpf, ?_, ?_, ?_, ?_, ?_, ?_, ?_, ?_⟩,
          by rw [htasks]; simp⟩
        · rw [hnext]; exact ht.hp
        · rw [hnext]; exact ht.hf
        · rw [hheap]; exact ht.fstate
        · rw [hheap]; exact ht.pstate
        · intro n ls hnf hls
          rw [hheap] at hls
          exact ht.others n ls hnf hls
        · intro u2 n hn
          rw [hfet] at hn
          exact ht.fet u2 n hn
        · rw [hfa]; exact ht.faSelf
        · intro i n hi hn
          rw [hfa] at hn
          exact ht.faOthers i n hi hn
        · intro s n hn
          rw [hpres] at hn
          by_cases hsx : s = ty
          · subst hsx
            rw [upd_self] at hn
            cases hn
            exact hsf2
          · rw [upd_ne _ _ _ _ hsx] at hn
            exact ht.presNoF s n hn
        · rw [hpres]
          by_cases hid : id = ty
          · subst hid; rw [upd_self]; rfl
          · rw [upd_ne _ _ _ _ hid]; exact ht.pid
  | faDone i2 b2 lp2 tg2 =>
      have htg2 : tg2 ≠ p := by
        intro h
        exact hsp (by simp [Handler.targets, h])
      have htg3 : tg2 ≠ f := by
        intro h
        exact hsf (by simp [Handler.targets, h])
      have hfr := applyDefaults_frame st i2 (.arr lp2)
      have hnext : (runHandler env st (.faDone i2 b2 lp2 tg2) v).1.nextId = st.nextId := by
        by_cases hb : b2 <;> simp [runHandler, hb, hfr.1]
      have hheap : (runHandler env st (.faDone i2 b2 lp2 tg2) v).1.heap = st.heap := by
        by_cases hb : b2 <;> simp [runHandler, hb, hfr.2.1]
      have hpres : (runHandler env st (.faDone i2 b2 lp2 tg2) v).1.presets_
          = st.presets_ := by
        by_cases hb : b2 <;> simp [runHandler, hb, hfr.2.2.1]
      have hfet : (runHandler env st (.faDone i2 b2 lp2 tg2) v).1.fetchOf = st.fetchOf := by
        by_cases hb : b2 <;> simp [runHandler, hb, hfr.2.2.2.2.1]
      have hfa : (runHandler env st (.faDone i2 b2 lp2 tg2) v).1.faOf = st.faOf := by
        by_cases hb : b2 <;> simp [runHandler, hb, hfr.2.2.2.2.2.1]
      have htasks : (runHandler env st (.faDone i2 b2 lp2 tg2) v).2.2
          = [.settleT tg2 (.ok (.arr lp2))] := by
        by_cases hb : b2 <;> simp [runHandler, hb]
      refine ⟨⟨hwfall.1, ?_, ?_, ht.hpf, ?_, ?_, ?_, ?_, ?_, ?_, ?_, ?_⟩, ?_⟩
      · rw [hnext]; exact ht.hp
      · rw [hnext]; exact ht.hf
      · rw [hheap]; exact ht.fstate
      · rw [hheap]; exact ht.pstate
      · intro n ls hnf hls
        rw [hheap] at hls
        exact ht.others n ls hnf hls
      · intro u2 n hn
        rw [hfet] at hn
        exact ht.fet u2 n hn
      · rw [hfa]; exact ht.faSelf
      · intro i n hi hn
        rw [hfa] at hn
        exact ht.faOthers i n hi hn
      · intro s n hn
        rw [hpres] at hn
        exact ht.presNoF s n hn
      · rw [hpres]; exact ht.pid
      · intro t2 ht2
        rw [htasks] at ht2
        simp only [List.mem_singleton] at ht2
        subst ht2
        exact ⟨htg2, htg3⟩

theorem step1_tracks (env : Env) (st : St) (t : Task) (p f : Nat) (id : String)
    (b : Bool) (lp : List Preset)
    (ht : Tracks st p f id b lp) (hs : SafeTask p f id t) (htw : TaskWf st t) :
    Tracks (step1 env st t).1 p f id b lp
    ∧ ∀ t2 ∈ (step1 env st t).2, SafeTask p f id t2 := by
  have hwfnew : Wf (step1 env st t).1 := (step1_wf_all env st t ht.wf htw).1
  cases t with
  | registerT ty u =>
      cases hreq : st.requested_ u with
      | true =>
          have hstep : step1 env st (.registerT ty u) = (st, []) :=
            registerPreset_noop st ty u hreq
          rw [hstep]
          exact ⟨ht, by simp⟩
      | false =>
          cases hp2 : st.presets_ ty with
          | some p0 =>
              have hp0lt : p0 < st.nextId := ht.wf.pres ty p0 hp2
              have hp0f : p0 ≠ f := ht.presNoF ty p0 hp2
              have hcase : step1 env st (.registerT ty u)
                  = attach
                      { st with
                          requested_ := upd st.requested_ u true,
                          nextId := st.nextId + 1,
                          heap := upd st.heap st.nextId (.pending []) }
                      p0 (.thenL (some (.mergeOuter ty u)) (some .loadErrorH) st.nextId) :=
                registerPreset_merge_case st ty u p0 hreq hp2
              rcases attach_cases
                  { st with
                      requested_ := upd st.requested_ u true,
                      nextId := st.nextId + 1,
                      heap := upd st.heap st.nextId (.pending []) }
                  p0 (.thenL (some (.mergeOuter ty u)) (some .loadErrorH) st.nextId) with
                ⟨ls, hls, heq⟩ | ⟨v2, hv, heq⟩ | ⟨r2, hv, heq⟩
              · have hcase2 := hcase.trans heq
                have hls2 : st.heap p0 = .pending ls := by
                  have hh : upd st.heap st.nextId (.pending []) p0 = st.heap p0 :=
                    upd_ne _ _ _ _ (by omega)
                  rw [← hh]
                  exact hls
                have hnext : (step1 env st (.registerT ty u)).1.nextId = st.nextId + 1 := by
                  rw [hcase2]
                have hheap : (step1 env st (.registerT ty u)).1.heap
                    = upd (upd st.heap st.nextId (.pending [])) p0
                        (.pending (ls ++ [.thenL (some (.mergeOuter ty u))
                          (some .loadErrorH) st.nextId])) := by
                  rw [hcase2]
                have hpres : (step1 env st (.registerT ty u)).1.presets_ = st.presets_ := by
                  rw [hcase2]
                have hfet : (step1 env st (.registerT ty u)).1.fetchOf = st.fetchOf := by
                  rw [hcase2]
                have hfa : (step1 env st (.registerT ty u)).1.faOf = st.faOf := by
                  rw [hcase2]
                have htasks : (step1 env st (.registerT ty u)).2 = [] := by
                  rw [hcase2]
                have hpx := ht.hp
                have hfx := ht.hf
                refine ⟨⟨hwfnew, ?_, ?_, ht.hpf, ?_, ?_, ?_, ?_, ?_, ?_, ?_, ?_⟩,
                  by rw [htasks]; simp⟩
                · rw [hnext]; omega
                · rw [hnext]; omega
                · rw [hheap, upd_ne _ _ _ _ (Ne.symm hp0f), upd_ne _ _ _ _ (by omega)]
                  exact ht.fstate
                · rcases ht.pstate with ⟨ls0, hls0⟩
                  by_cases hpp0 : p = p0
                  · subst hpp0
                    refine ⟨ls ++ [.thenL (some (.mergeOuter ty u)) (some .loadErrorH)
                      st.nextId], ?_⟩
                    rw [hheap, upd_self]
                  · exact ⟨ls0, by
                      rw [hheap, upd_ne _ _ _ _ hpp0, upd_ne _ _ _ _ (by omega)]
                      exact hls0⟩
                · intro n ls2 hnf hls3 l hl
                  rw [hheap] at hls3
                  by_cases h0 : n = p0
                  · subst h0
                    rw [upd_self] at hls3
                    cases hls3
                    rcases List.mem_append.mp hl with hl2 | hl2
                    · exact ht.others n ls hnf hls2 l hl2
                    · simp only [List.mem_singleton] at hl2
                      subst hl2
                      constructor
                      · simp [Listener.targets, Handler.targets, Option.elim]
                        omega
                      · simp [Listener.targets, Handler.targets, Option.elim]
                        omega
                  · rw [upd_ne _ _ _ _ h0] at hls3
                    by_cases h1 : n = st.nextId
                    · subst h1
                      rw [upd_self] at hls3
                      cases hls3
                      simp at hl
                    · rw [upd_ne _ _ _ _ h1] at hls3
                      exact ht.others n ls2 hnf hls3 l hl
                · intro u2 n hn
                  rw [hfet] at hn
                  exact ht.fet u2 n hn
                · rw [hfa]; exact ht.faSelf
                · intro i n hi hn
                  rw [hfa] at hn
                  exact ht.faOthers i n hi hn
                · intro s n hn
                  rw [hpres] at hn
                  exact ht.presNoF s n hn
                · rw [hpres]; exact ht.pid
              · have hcase2 := hcase.trans heq
                have hnext : (step1 env st (.registerT ty u)).1.nextId = st.nextId + 1 := by
                  rw [hcase2]
                have hheap : (step1 env st (.registerT ty u)).1.heap
                    = upd st.heap st.nextId (.pending []) := by
                  rw [hcase2]
                have hpres : (step1 env st (.registerT ty u)).1.presets_ = st.presets_ := by
                  rw [hcase2]
                have hfet : (step1 env st (.registerT ty u)).1.fetchOf = st.fetchOf := by
                  rw [hcase2]
                have hfa : (step1 env st (.registerT ty u)).1.faOf = st.faOf := by
                  rw [hcase2]
                have htasks : (step1 env st (.registerT ty u)).2
                    = [.fireT (.ok v2) (.thenL (some (.mergeOuter ty u)) (some .loadErrorH)
                        st.nextId)] := by
                  rw [hcase2]
                have hpx := ht.hp
                have hfx := ht.hf
                refine ⟨⟨hwfnew, ?_, ?_, ht.hpf, ?_, ?_, ?_, ?_, ?_, ?_, ?_, ?_⟩, ?_⟩
                · rw [hnext]; omega
                · rw [hnext]; omega
                · rw [hheap, upd_ne _ _ _ _ (by omega)]
                  exact ht.fstate
                · rcases ht.pstate with ⟨ls0, hls0⟩
                  exact ⟨ls0, by
                    rw [hheap, upd_ne _ _ _ _ (by omega)]
                    exact hls0⟩
                · intro n ls2 hnf hls3 l hl
                  rw [hheap] at hls3
                  by_cases h1 : n = st.nextId
                  · subst h1
                    rw [upd_self] at hls3
                    cases hls3
                    simp at hl
                  · rw [upd_ne _ _ _ _ h1] at hls3
                    exact ht.others n ls2 hnf hls3 l hl
                · intro u2 n hn
                  rw [hfet] at hn
                  exact ht.fet u2 n hn
                · rw [hfa]; exact ht.faSelf
                · intro i n hi hn
                  rw [hfa] at hn
                  exact ht.faOthers i n hi hn
                · intro s n hn
                  rw [hpres] at hn
                  exact ht.presNoF s n hn
                · rw [hpres]; exact ht.pid
                · intro t2 ht2
                  rw [htasks] at ht2
                  simp only [List.mem_singleton] at ht2
                  subst ht2
                  constructor
                  · simp [Listener.targets, Handler.targets, Option.elim]
                    omega
                  · simp [Listener.targets, Handler.targets, Option.elim]
                    omega
              · have hcase2 := hcase.trans heq
                have hnext : (step1 env st (.registerT ty u)).1.nextId = st.nextId + 1 := by
                  rw [hcase2]
                have hheap : (step1 env st (.registerT ty u)).1.heap
                    = upd st.heap st.nextId (.pending []) := by
                  rw [hcase2]
                have hpres : (step1 env st (.registerT ty u)).1.presets_ = st.presets_ := by
                  rw [hcase2]
                have hfet : (step1 env st (.registerT ty u)).1.fetchOf = st.fetchOf := by
                  rw [hcase2]
                have hfa : (step1 env st (.registerT ty u)).1.faOf = st.faOf := by
                  rw [hcase2]
                have htasks : (step1 env st (.registerT ty u)).2
                    = [.fireT (.error r2) (.thenL (some (.mergeOuter ty u))
                        (some .loadErrorH) st.nextId)] := by
                  rw [hcase2]
                have hpx := ht.hp
                have hfx := ht.hf
                refine ⟨⟨hwfnew, ?_, ?_, ht.hpf, ?_, ?_, ?_, ?_, ?_, ?_, ?_, ?_⟩, ?_⟩
                · rw [hnext]; omega
                · rw [hnext]; omega
                · rw [hheap, upd_ne _ _ _ _ (by omega)]
                  exact ht.fstate
                · rcases ht.pstate with ⟨ls0, hls0⟩
                  exact ⟨ls0, by
                    rw [hheap, upd_ne _ _ _ _ (by omega)]
                    exact hls0⟩
                · intro n ls2 hnf hls3 l hl
                  rw [hheap] at hls3
                  by_cases h1 : n = st.nextId
                  · subst h1
                    rw [upd_self] at hls3
                    cases hls3
                    simp at hl
                  · rw [upd_ne _ _ _ _ h1] at hls3
                    exact ht.others n ls2 hnf hls3 l hl
                · intro u2 n hn
                  rw [hfet] at hn
                  exact ht.fet u2 n hn
                · rw [hfa]; exact ht.faSelf
                · intro i n hi hn
                  rw [hfa] at hn
                  exact ht.faOthers i n hi hn
                · intro s n hn
                  rw [hpres] at hn
                  exact ht.presNoF s n hn
                · rw [hpres]; exact ht.pid
                · intro t2 ht2
                  rw [htasks] at ht2
                  simp only [List.mem_singleton] at ht2
                  subst ht2
                  constructor
                  · simp [Listener.targets, Handler.targets, Option.elim]
                    omega
                  · simp [Listener.targets, Handler.targets, Option.elim]
                    omega
          | none =>
              have hty : ty ≠ id := by
                intro h
                have hpid := ht.pid
                rw [← h, hp2] at hpid
                simp at hpid
              have hcase2 : step1 env st (.registerT ty u)
                  = ({ st with
                        requested_ := upd st.requested_ u true,
                        nextId := st.nextId + 2,
                        heap := upd (upd (upd st.heap st.nextId (.pending []))
                            (st.nextId + 1) (.pending []))
                          st.nextId
                          (.pending [.thenL (some .initialParse) (some .loadErrorH)
                            (st.nextId + 1)]),
                        fetchOf := upd st.fetchOf u (some st.nextId),
                        presets_ := upd st.presets_ ty (some (st.nextId + 1)) }, []) :=
                registerPreset_initial_case st ty u hreq hp2
              have hnext : (step1 env st (.registerT ty u)).1.nextId = st.nextId + 2 := by
                rw [hcase2]
              have hheap : (step1 env st (.registerT ty u)).1.heap
                  = upd (upd (upd st.heap st.nextId (.pending [])) (st.nextId + 1)
                      (.pending []))
                    st.nextId
                    (.pending [.thenL (some .initialParse) (some .loadErrorH)
                      (st.nextId + 1)]) := by
                rw [hcase2]
              have hpres : (step1 env st (.registerT ty u)).1.presets_
                  = upd st.presets_ ty (some (st.nextId + 1)) := by
                rw [hcase2]
              have hfet : (step1 env st (.registerT ty u)).1.fetchOf
                  = upd st.fetchOf u (some st.nextId) := by
                rw [hcase2]
              have hfa : (step1 env st (.registerT ty u)).1.faOf = st.faOf := by
                rw [hcase2]
              have htasks : (step1 env st (.registerT ty u)).2 = [] := by
                rw [hcase2]
              have hpx := ht.hp
              have hfx := ht.hf
              refine ⟨⟨hwfnew, ?_, ?_, ht.hpf, ?_, ?_, ?_, ?_, ?_, ?_, ?_, ?_⟩,
                by rw [htasks]; simp⟩
              · rw [hnext]; omega
              · rw [hnext]; omega
              · rw [hheap, upd_ne _ _ _ _ (by omega), upd_ne _ _ _ _ (by omega),
                  upd_ne _ _ _ _ (by omega)]
                exact ht.fstate
              · rcases ht.pstate with ⟨ls0, hls0⟩
                exact ⟨ls0, by
                  rw [hheap, upd_ne _ _ _ _ (by omega), upd_ne _ _ _ _ (by omega),
                    upd_ne _ _ _ _ (by omega)]
                  exact hls0⟩
              · intro n ls2 hnf hls3 l hl
                rw [hheap] at hls3
                by_cases h0 : n = st.nextId
                · subst h0
                  rw [upd_self] at hls3
                  cases hls3
                  simp only [List.mem_singleton] at hl
                  subst hl
                  constructor
                  · simp [Listener.targets, Handler.targets, Option.elim]
                    omega
                  · simp [Listener.targets, Handler.targets, Option.elim]
                    omega
                · rw [upd_ne _ _ _ _ h0] at hls3
                  by_cases h1 : n = st.nextId + 1
                  · subst h1
                    rw [upd_self] at hls3
                    cases hls3
                    simp at hl
                  · rw [upd_ne _ _ _ _ h1, upd_ne _ _ _ _ h0] at hls3
                    exact ht.others n ls2 hnf hls3 l hl
              · intro u2 n hn
                rw [hfet] at hn
                by_cases hu : u2 = u
                · subst hu
                  rw [upd_self] at hn
                  cases hn
                  constructor <;> omega
                · rw [upd_ne _ _ _ _ hu] at hn
                  exact ht.fet u2 n hn
              · rw [hfa]; exact ht.faSelf
              · intro i n hi hn
                rw [hfa] at hn
                exact ht.faOthers i n hi hn
              · intro s n hn
                rw [hpres] at hn
                by_cases hsx : s = ty
                · subst hsx
                  rw [upd_self] at hn
                  cases hn
                  omega
                · rw [upd_ne _ _ _ _ hsx] at hn
                  exact ht.presNoF s n hn
              · rw [hpres, upd_ne _ _ _ _ (Ne.symm hty)]
                exact ht.pid
  | getPresetsT i2 b2 =>
      cases hpp : st.presets_ i2 with
      | some q =>
          have hstep : step1 env st (.getPresetsT i2 b2) = (st, []) := by
            simp [step1, getPresets, hpp]
          rw [hstep]
          exact ⟨ht, by simp⟩
      | none =>
          have hi2 : i2 ≠ id := by
            intro h
            have hpid := ht.pid
            rw [← h, hpp] at hpid
            simp at hpid
          have hcase2 : step1 env st (.getPresetsT i2 b2)
              = (initPreset env st i2 b2, []) := by
            simp [step1, getPresets, hpp]
          have hnext : (step1 env st (.getPresetsT i2 b2)).1.nextId = st.nextId + 2 := by
            rw [hcase2, initPreset_case]
          have hheap : (step1 env st (.getPresetsT i2 b2)).1.heap
              = upd (upd (upd st.heap st.nextId (.pending [])) (st.nextId + 1)
                  (.pending []))
                (st.nextId + 1)
                (.pending [.alwaysL (.faDone i2 b2 (initLayerPresets env st i2)
                  st.nextId)]) := by
            rw [hcase2, initPreset_case]
          have hpres : (step1 env st (.getPresetsT i2 b2)).1.presets_
              = upd st.presets_ i2 (some st.nextId) := by
            rw [hcase2, initPreset_case]
          have hfet : (step1 env st (.getPresetsT i2 b2)).1.fetchOf = st.fetchOf := by
            rw [hcase2, initPreset_case]
          have hfa : (step1 env st (.getPresetsT i2 b2)).1.faOf
              = upd st.faOf i2 (some (st.nextId + 1)) := by
            rw [hcase2, initPreset_case]
          have htasks : (step1 env st (.getPresetsT i2 b2)).2 = [] := by
            rw [hcase2]
          have hpx := ht.hp
          have hfx := ht.hf
          refine ⟨⟨hwfnew, ?_, ?_, ht.hpf, ?_, ?_, ?_, ?_, ?_, ?_, ?_, ?_⟩,
            by rw [htasks]; simp⟩
          · rw [hnext]; omega
          · rw [hnext]; omega
          · rw [hheap, upd_ne _ _ _ _ (by omega), upd_ne _ _ _ _ (by omega),
              upd_ne _ _ _ _ (by omega)]
            exact ht.fstate
          · rcases ht.pstate with ⟨ls0, hls0⟩
            exact ⟨ls0, by
              rw [hheap, upd_ne _ _ _ _ (by omega), upd_ne _ _ _ _ (by omega),
                upd_ne _ _ _ _ (by omega)]
              exact hls0⟩
          · intro n ls2 hnf hls3 l hl
            rw [hheap] at hls3
            by_cases h1 : n = st.nextId + 1
            · subst h1
              rw [upd_self] at hls3
              cases hls3
              simp only [List.mem_singleton] at hl
              subst hl
              constructor
              · simp [Listener.targets, Handler.targets]
                omega
              · simp [Listener.targets, Handler.targets]
                omega
            · rw [upd_ne _ _ _ _ h1] at hls3
              by_cases h0 : n = st.nextId
              · subst h0
                rw [upd_ne _ _ _ _ (by omega), upd_self] at hls3
                cases hls3
                simp at hl
              · rw [upd_ne _ _ _ _ h1, upd_ne _ _ _ _ h0] at hls3
                exact ht.others n ls2 hnf hls3 l hl
          · intro u2 n hn
            rw [hfet] at hn
            exact ht.fet u2 n hn
          · rw [hfa, upd_ne _ _ _ _ (Ne.symm hi2)]
            exact ht.faSelf
          · intro i n hi hn
            rw [hfa] at hn
            by_cases hii : i = i2
            · subst hii
              rw [upd_self] at hn
              cases hn
              constructor <;> omega
            · rw [upd_ne _ _ _ _ hii] at hn
              exact ht.faOthers i n hi hn
          · intro s n hn
            rw [hpres] at hn
            by_cases hsx : s = i2
            · subst hsx
              rw [upd_self] at hn
              cases hn
              omega
            · rw [upd_ne _ _ _ _ hsx] at hn
              exact ht.presNoF s n hn
          · rw [hpres, upd_ne _ _ _ _ (Ne.symm hi2)]
            exact ht.pid
  | fetchDoneT u =>
      cases hf2 : st.fetchOf u with
      | some q =>
          have hstep : step1 env st (.fetchDoneT u)
              = (st, [.settleT q
                  (match env.fetch u with
                   | .ok body => .ok (.str body)
                   | .error e => .error e)]) := by
            simp [step1, hf2]
          rw [hstep]
          refine ⟨ht, ?_⟩
          intro t2 ht2
          simp only [List.mem_singleton] at ht2
          subst ht2
          exact ht.fet u q hf2
      | none =>
          have hstep : step1 env st (.fetchDoneT u) = (st, []) := by
            simp [step1, hf2]
          rw [hstep]
          exact ⟨ht, by simp⟩
  | faDoneT i2 ok =>
      have hi2 : i2 ≠ id := hs
      cases hf2 : st.faOf i2 with
      | some q =>
          have hstep : step1 env st (.faDoneT i2 ok)
              = (st, [.settleT q (if ok then .ok .undefined else .error .other)]) := by
            simp [step1, hf2]
          rw [hstep]
          refine ⟨ht, ?_⟩
          intro t2 ht2
          simp only [List.mem_singleton] at ht2
          subst ht2
          exact ht.faOthers i2 q hi2 hf2
      | none =>
          have hstep : step1 env st (.faDoneT i2 ok) = (st, []) := by
            simp [step1, hf2]
          rw [hstep]
          exact ⟨ht, by simp⟩
  | settleT q r =>
      have hqp : q ≠ p := hs.1
      have hqf : q ≠ f := hs.2
      cases hq : st.heap q with
      | pending ls =>
          have hstep : step1 env st (.settleT q r)
              = ({ st with heap := upd st.heap q (settledState r) },
                 ls.map (.fireT r)) := by
            simp [step1, hq]
          have hnext : (step1 env st (.settleT q r)).1.nextId = st.nextId := by
            rw [hstep]
          have hheap : (step1 env st (.settleT q r)).1.heap
              = upd st.heap q (settledState r) := by
            rw [hstep]
          have hpres : (step1 env st (.settleT q r)).1.presets_ = st.presets_ := by
            rw [hstep]
          have hfet : (step1 env st (.settleT q r)).1.fetchOf = st.fetchOf := by
            rw [hstep]
          have hfa : (step1 env st (.settleT q r)).1.faOf = st.faOf := by
            rw [hstep]
          have htasks : (step1 env st (.settleT q r)).2 = ls.map (.fireT r) := by
            rw [hstep]
          refine ⟨⟨hwfnew, ?_, ?_, ht.hpf, ?_, ?_, ?_, ?_, ?_, ?_, ?_, ?_⟩, ?_⟩
          · rw [hnext]; exact ht.hp
          · rw [hnext]; exact ht.hf
          · rw [hheap, upd_ne _ _ _ _ (Ne.symm hqf)]
            exact ht.fstate
          · rcases ht.pstate with ⟨ls0, hls0⟩
            exact ⟨ls0, by
              rw [hheap, upd_ne _ _ _ _ (Ne.symm hqp)]
              exact hls0⟩
          · intro n ls2 hnf hls3 l hl
            rw [hheap] at hls3
            by_cases h0 : n = q
            · subst h0
              rw [upd_self] at hls3
              cases hr : r <;> rw [hr] at hls3 <;> simp [settledState] at hls3
            · rw [upd_ne _ _ _ _ h0] at hls3
              exact ht.others n ls2 hnf hls3 l hl
          · intro u2 n hn
            rw [hfet] at hn
            exact ht.fet u2 n hn
          · rw [hfa]; exact ht.faSelf
          · intro i n hi hn
            rw [hfa] at hn
            exact ht.faOthers i n hi hn
          · intro s n hn
            rw [hpres] at hn
            exact ht.presNoF s n hn
          · rw [hpres]; exact ht.pid
          · intro t2 ht2
            rw [htasks] at ht2
            rcases List.mem_map.mp ht2 with ⟨l, hl, rfl⟩
            exact ht.others q ls hqf hq l hl
      | fulfilled v2 =>
          have hstep : step1 env st (.settleT q r) = (st, []) := by
            simp [step1, hq]
          rw [hstep]
          exact ⟨ht, by simp⟩
      | rejected r2 =>
          have hstep : step1 env st (.settleT q r) = (st, []) := by
            simp [step1, hq]
          rw [hstep]
          exact ⟨ht, by simp⟩
  | fireT r l =>
      cases l with
      | thenL onFul onRej tg =>
          have htgp : tg ≠ p := by
            intro h
            exact hs.1 (by simp [Listener.targets, h])
          have htgf : tg ≠ f := by
            intro h
            exact hs.2 (by simp [Listener.targets, h])
          cases r with
          | ok v2 =>
              cases onFul with
              | some h2 =>
                  have hsubp : p ∉ h2.targets := by
                    intro hm
                    refine hs.1 ?_
                    simp [Listener.targets, Option.elim]
                    exact Or.inr (Or.inl hm)
                  have hsubf : f ∉ h2.targets := by
                    intro hm
                    refine hs.2 ?_
                    simp [Listener.targets, Option.elim]
                    exact Or.inr (Or.inl hm)
                  have hbound : ∀ m ∈ h2.targets, m < st.nextId := by
                    intro m hm
                    refine htw m ?_
                    simp [Listener.targets, Option.elim]
                    exact Or.inr (Or.inl hm)
                  have hrht := runHandler_tracks env st h2 v2 p f id b lp ht hsubp hsubf
                    hbound
                  have hstep1 : (step1 env st (.fireT (.ok v2)
                      (.thenL (some h2) onRej tg))).1 = (runHandler env st h2 v2).1 := rfl
                  have hstep2 : (step1 env st (.fireT (.ok v2)
                      (.thenL (some h2) onRej tg))).2
                      = (runHandler env st h2 v2).2.2
                        ++ [.settleT tg (runHandler env st h2 v2).2.1] := rfl
                  rw [hstep1, hstep2]
                  refine ⟨hrht.1, ?_⟩
                  intro t2 ht2
                  rcases List.mem_append.mp ht2 with ht3 | ht3
                  · exact hrht.2 t2 ht3
                  · simp only [List.mem_singleton] at ht3
                    subst ht3
                    exact ⟨htgp, htgf⟩
              | none =>
                  have hstep : step1 env st (.fireT (.ok v2) (.thenL none onRej tg))
                      = (st, [.settleT tg (.ok v2)]) := rfl
                  rw [hstep]
                  refine ⟨ht, ?_⟩
                  intro t2 ht2
                  simp only [List.mem_singleton] at ht2
                  subst ht2
                  exact ⟨htgp, htgf⟩
          | error e =>
              cases onRej with
              | some h2 =>
                  have hsubp : p ∉ h2.targets := by
                    intro hm
                    refine hs.1 ?_
                    simp [Listener.targets, Option.elim]
                    exact Or.inr (Or.inr hm)
                  have hsubf : f ∉ h2.targets := by
                    intro hm
                    refine hs.2 ?_
                    simp [Listener.targets, Option.elim]
                    exact Or.inr (Or.inr hm)
                  have hbound : ∀ m ∈ h2.targets, m < st.nextId := by
                    intro m hm
                    refine htw m ?_
                    simp [Listener.targets, Option.elim]
                    exact Or.inr (Or.inr hm)
                  have hrht := runHandler_tracks env st h2 e p f id b lp ht hsubp hsubf
                    hbound
                  have hstep1 : (step1 env st (.fireT (.error e)
                      (.thenL onFul (some h2) tg))).1 = (runHandler env st h2 e).1 := by
                    cases onFul <;> rfl
                  have hstep2 : (step1 env st (.fireT (.error e)
                      (.thenL onFul (some h2) tg))).2
                      = (runHandler env st h2 e).2.2
                        ++ [.settleT tg (runHandler env st h2 e).2.1] := by
                    cases onFul <;> rfl
                  rw [hstep1, hstep2]
                  refine ⟨hrht.1, ?_⟩
                  intro t2 ht2
                  rcases List.mem_append.mp ht2 with ht3 | ht3
                  · exact hrht.2 t2 ht3
                  · simp only [List.mem_singleton] at ht3
                    subst ht3
                    exact ⟨htgp, htgf⟩
              | none =>
                  have hstep : step1 env st (.fireT (.error e) (.thenL onFul none tg))
                      = (st, [.settleT tg (.error e)]) := by
                    cases onFul <;> rfl
                  rw [hstep]
                  refine ⟨ht, ?_⟩
                  intro t2 ht2
                  simp only [List.mem_singleton] at ht2
                  subst ht2
                  exact ⟨htgp, htgf⟩
      | alwaysL h2 =>
          have hsubp : p ∉ h2.targets := hs.1
          have hsubf : f ∉ h2.targets := hs.2
          have hbound : ∀ m ∈ h2.targets, m < st.nextId := htw
          have hrht := runHandler_tracks env st h2 .undefined p f id b lp ht hsubp hsubf hbound
          have hstep1 : (step1 env st (.fireT r (.alwaysL h2))).1
              = (runHandler env st h2 .undefined).1 := by
            cases r <;> rfl
          have hstep2 : (step1 env st (.fireT r (.alwaysL h2))).2
              = (runHandler env st h2 .undefined).2.2 := by
            cases r <;> rfl
          rw [hstep1, hstep2]
          exact ⟨hrht.1, hrht.2⟩

theorem run_zero (env : Env) (st : St) (ts : List Task) : run 0 env st ts = st := by
  cases ts <;> simp [run]

theorem run_wf_all (fuel : Nat) (env : Env) :
    ∀ (st : St) (ts : List Task), Wf st → (∀ t ∈ ts, TaskWf st t) →
    Wf (run fuel env st ts)
    ∧ (∀ n w, st.heap n = .fulfilled w → (run fuel env st ts).heap n = .fulfilled w) := by
  induction fuel with
  | zero =>
      intro st ts hwf htw
      rw [run_zero]
      exact ⟨hwf, fun n w hw => hw⟩
  | succ k ih =>
      intro st ts hwf htw
      cases ts with
      | nil =>
          rw [run_nil]
          exact ⟨hwf, fun n w hw => hw⟩
      | cons t rest =>
          rw [run_cons_step _ _ _ _ _ (by omega)]
          have harith : k + 1 - 1 = k := by omega
          rw [harith]
          have h1 := step1_wf_all env st t hwf (htw t (by simp))
          have htw2 : ∀ t2 ∈ (step1 env st t).2 ++ rest, TaskWf (step1 env st t).1 t2 := by
            intro t2 ht2
            rcases List.mem_append.mp ht2 with h | h
            · exact h1.2.2.1 t2 h
            · exact taskWf_mono st _ h1.2.1 t2 (htw t2 (by simp [h]))
          have hih := ih (step1 env st t).1 ((step1 env st t).2 ++ rest) h1.1 htw2
          exact ⟨hih.1, fun n w hw => hih.2 n w (h1.2.2.2 n w hw)⟩

theorem run_tracks (fuel : Nat) (env : Env) (p f : Nat) (id : String) (b : Bool)
    (lp : List Preset) :
    ∀ (st : St) (ts : List Task), Tracks st p f id b lp →
    (∀ t ∈ ts, SafeTask p f id t) → (∀ t ∈ ts, TaskWf st t) →
    Tracks (run fuel env st ts) p f id b lp := by
  induction fuel with
  | zero =>
      intro st ts ht _ _
      rw [run_zero]
      exact ht
  | succ k ih =>
      intro st ts ht hsafe htw
      cases ts with
      | nil =>
          rw [run_nil]
          exact ht
      | cons t rest =>
          rw [run_cons_step _ _ _ _ _ (by omega)]
          have harith : k + 1 - 1 = k := by omega
          rw [harith]
          have h1 := step1_tracks env st t p f id b lp ht (hsafe t (by simp))
            (htw t (by simp))
          have h2 := step1_wf_all env st t ht.wf (htw t (by simp))
          apply ih
          · exact h1.1
          · intro t2 ht2
            rcases List.mem_append.mp ht2 with h | h
            · exact h1.2 t2 h
            · exact hsafe t2 (by simp [h])
          · intro t2 ht2
            rcases List.mem_append.mp ht2 with h | h
            · exact h2.2.2.1 t2 h
            · exact taskWf_mono st _ h2.2.1 t2 (htw t2 (by simp [h]))

theorem evTask_taskWf (st : St) (e : Ev) : TaskWf st e.toTask := by
  cases e <;> trivial

theorem evTask_safe (p f : Nat) (id : String) (e : Ev) (he : ∀ o, e ≠ Ev.faE id o) :
    SafeTask p f id e.toTask := by
  cases e with
  | faE i o =>
      show i ≠ id
      intro h
      exact he o (by rw [h])
  | registerE a c => trivial
  | getPresetsE a c => trivial
  | fetchE a => trivial

theorem runEvents_tracks (fuel : Nat) (env : Env) (p f : Nat) (id : String) (b : Bool)
    (lp : List Preset) :
    ∀ (evs : List Ev) (st : St), Tracks st p f id b lp →
    (∀ o, Ev.faE id o ∉ evs) →
    Tracks (runEvents fuel env st evs) p f id b lp := by
  intro evs
  induction evs with
  | nil =>
      intro st ht _
      exact ht
  | cons e rest ih =>
      intro st ht hev
      show Tracks (runEvents fuel env (run fuel env st [e.toTask]) rest) p f id b lp
      apply ih
      · apply run_tracks fuel env p f id b lp st [e.toTask] ht
        · intro t htm
          simp only [List.mem_singleton] at htm
          subst htm
          apply evTask_safe
          intro o he
          exact hev o (by rw [← he]; exact List.mem_cons_self e rest)
        · intro t htm
          simp only [List.mem_singleton] at htm
          subst htm
          exact evTask_taskWf st e
      · intro o hmem
        exact hev o (List.mem_cons_of_mem e hmem)

theorem tracks_init (env : Env) (s0 : Settings) (id : String) (b : Bool) :
    Tracks ((getPresets env (initSt s0) id b).1) 0 1 id b
      (initLayerPresets env (initSt s0) id)
    ∧ (getPresets env (initSt s0) id b).2 = some 0
    ∧ (getPresets env (initSt s0) id b).1 = initPreset env (initSt s0) id b := by
  have hg : (getPresets env (initSt s0) id b).1 = initPreset env (initSt s0) id b := by
    simp [getPresets, initSt]
  have hcase := initPreset_case env (initSt s0) id b
  have hnext : (getPresets env (initSt s0) id b).1.nextId = 2 := by
    rw [hg, hcase]; rfl
  have hheap : (getPresets env (initSt s0) id b).1.heap
      = upd (upd (upd (fun _ => PromState.pending []) 0 (.pending [])) 1 (.pending []))
          1 (.pending [.alwaysL (.faDone id b (initLayerPresets env (initSt s0) id) 0)]) := by
    rw [hg, hcase]; rfl
  have hpres : (getPresets env (initSt s0) id b).1.presets_
      = upd (fun _ => none) id (some 0) := by
    rw [hg, hcase]; rfl
  have hfa : (getPresets env (initSt s0) id b).1.faOf
      = upd (fun _ => none) id (some 1) := by
    rw [hg, hcase]; rfl
  have hfet : (getPresets env (initSt s0) id b).1.fetchOf = fun _ => none := by
    rw [hg, hcase]; rfl
  refine ⟨⟨⟨?_, ?_, ?_, ?_, ?_⟩, ?_, ?_, by decide, ?_, ?_, ?_, ?_, ?_, ?_, ?_, ?_⟩,
    ?_, hg⟩
  · intro n hn
    have hn2 : 2 ≤ n := by rw [hnext] at hn; exact hn
    rw [hheap, upd_ne _ _ _ _ (by omega), upd_ne _ _ _ _ (by omega),
      upd_ne _ _ _ _ (by omega)]
  · intro n ls hls l hl m hm
    rw [hnext]
    rw [hheap] at hls
    by_cases h1 : n = 1
    · subst h1
      rw [upd_self] at hls
      cases hls
      simp only [List.mem_singleton] at hl
      subst hl
      simp [Listener.targets, Handler.targets] at hm
      omega
    · rw [upd_ne _ _ _ _ h1] at hls
      by_cases h0 : n = 0
      · subst h0
        rw [upd_ne _ _ _ _ (by omega), upd_self] at hls
        cases hls
        simp at hl
      · rw [upd_ne _ _ _ _ h1, upd_ne _ _ _ _ h0] at hls
        cases hls
        simp at hl
  · intro u n hn
    rw [hfet] at hn
    cases hn
  · intro i n hn
    rw [hfa] at hn
    rw [hnext]
    by_cases hi : i = id
    · subst hi
      rw [upd_self] at hn
      cases hn
      omega
    · rw [upd_ne _ _ _ _ hi] at hn
      cases hn
  · intro s n hn
    rw [hpres] at hn
    rw [hnext]
    by_cases hsx : s = id
    · subst hsx
      rw [upd_self] at hn
      cases hn
      omega
    · rw [upd_ne _ _ _ _ hsx] at hn
      cases hn
  · rw [hnext]; omega
  · rw [hnext]; omega
  · rw [hheap, upd_self]
  · exact ⟨[], by
      rw [hheap, upd_ne _ _ _ _ (by omega), upd_ne _ _ _ _ (by omega), upd_self]⟩
  · intro n ls hnf hls l hl
    rw [hheap] at hls
    rw [upd_ne _ _ _ _ hnf] at hls
    by_cases h0 : n = 0
    · subst h0
      rw [upd_ne _ _ _ _ hnf, upd_self] at hls
      cases hls
      simp at hl
    · rw [upd_ne _ _ _ _ hnf, upd_ne _ _ _ _ h0] at hls
      cases hls
      simp at hl
  · intro u n hn
    rw [hfet] at hn
    cases hn
  · rw [hfa, upd_self]
  · intro i n hi hn
    rw [hfa, upd_ne _ _ _ _ hi] at hn
    cases hn
  · intro s n hn
    rw [hpres] at hn
    by_cases hsx : s = id
    · subst hsx
      rw [upd_self] at hn
      cases hn
      omega
    · rw [upd_ne _ _ _ _ hsx] at hn
      cases hn
  · rw [hpres, upd_self]
    rfl
  · show (getPresets env (initSt s0) id b).1.presets_ id = some 0
    rw [hpres, upd_self]

theorem faDone_settle_aux (env : Env) (st : St) (p f : Nat) (id : String) (b : Bool)
    (lp : List Preset) (ht : Tracks st p f id b lp) (k : Nat)
    (r0 : Except JSVal JSVal) :
    (run (k + 3) env st [.settleT f r0]).heap p = .fulfilled (.arr lp) := by
  rcases ht.pstate with ⟨ls, hls⟩
  have hstep2 : step1 env st (.settleT f r0)
      = ({ st with heap := upd st.heap f (settledState r0) },
         [.fireT r0 (.alwaysL (.faDone id b lp p))]) := by
    simp [step1, ht.fstate]
  have e2 : run (k + 3) env st [.settleT f r0]
      = run (k + 2) env { st with heap := upd st.heap f (settledState r0) }
          [.fireT r0 (.alwaysL (.faDone id b lp p))] := by
    rw [run_cons_step _ _ _ _ _ (by omega), hstep2]
    rfl
  have hstep3 : step1 env { st with heap := upd st.heap f (settledState r0) }
      (.fireT r0 (.alwaysL (.faDone id b lp p)))
      = ((if b then applyDefaults { st with heap := upd st.heap f (settledState r0) } id (.arr lp) else { st with heap := upd st.heap f (settledState r0) }),
         [.settleT p (.ok (.arr lp))]) := by
    cases r0 <;> rfl
  have e3 : run (k + 2) env { st with heap := upd st.heap f (settledState r0) }
      [.fireT r0 (.alwaysL (.faDone id b lp p))]
      = run (k + 1) env
          (if b then applyDefaults { st with heap := upd st.heap f (settledState r0) } id (.arr lp) else { st with heap := upd st.heap f (settledState r0) })
          [.settleT p (.ok (.arr lp))] := by
    rw [run_cons_step _ _ _ _ _ (by omega), hstep3]
    rfl
  have hh2 : (if b then applyDefaults { st with heap := upd st.heap f (settledState r0) } id (.arr lp) else { st with heap := upd st.heap f (settledState r0) }).heap
      = upd st.heap f (settledState r0) := by
    by_cases hb : b
    · simp only [hb, if_true]
      exact (applyDefaults_frame _ id (.arr lp)).2.1
    · simp [hb]
  have hn2 : (if b then applyDefaults { st with heap := upd st.heap f (settledState r0) } id (.arr lp) else { st with heap := upd st.heap f (settledState r0) }).nextId
      = st.nextId := by
    by_cases hb : b
    · simp only [hb, if_true]
      rw [(applyDefaults_frame _ id (.arr lp)).1]
    · simp [hb]
  have hh3 : (if b then applyDefaults { st with heap := upd st.heap f (settledState r0) } id (.arr lp) else { st with heap := upd st.heap f (settledState r0) }).heap p
      = .pending ls := by
    rw [hh2, upd_ne _ _ _ _ ht.hpf]
    exact hls
  have hstep4 : step1 env
      (if b then applyDefaults { st with heap := upd st.heap f (settledState r0) } id (.arr lp) else { st with heap := upd st.heap f (settledState r0) })
      (.settleT p (.ok (.arr lp)))
      = ({ (if b then applyDefaults { st with heap := upd st.heap f (settledState r0) } id (.arr lp) else { st with heap := upd st.heap f (settledState r0) }) with heap := upd (if b then applyDefaults { st with heap := upd st.heap f (settledState r0) } id (.arr lp) else { st with heap := upd st.heap f (settledState r0) }).heap p (.fulfilled (.arr lp)) },
         ls.map (.fireT (.ok (.arr lp)))) := by
    simp only [step1]
    rw [hh3]
    rfl
  have e4 : run (k + 1) env
      (if b then applyDefaults { st with heap := upd st.heap f (settledState r0) } id (.arr lp) else { st with heap := upd st.heap f (settledState r0) })
      [.settleT p (.ok (.arr lp))]
      = run k env
          ({ (if b then applyDefaults { st with heap := upd st.heap f (settledState r0) } id (.arr lp) else { st with heap := upd st.heap f (settledState r0) }) with heap := upd (if b then applyDefaults { st with heap := upd st.heap f (settledState r0) } id (.arr lp) else { st with heap := upd st.heap f (settledState r0) }).heap p (.fulfilled (.arr lp)) })
          (ls.map (.fireT (.ok (.arr lp)))) := by
    rw [run_cons_step _ _ _ _ _ (by omega), hstep4, List.append_nil]
    rfl
  rw [e2, e3, e4]
  have hw1 := step1_wf_all env st (.settleT f r0) ht.wf ht.hf
  rw [hstep2] at hw1
  have hw2 := step1_wf_all env { st with heap := upd st.heap f (settledState r0) }
    (.fireT r0 (.alwaysL (.faDone id b lp p)))
    hw1.1
    (by
      intro m hm
      simp [Listener.targets, Handler.targets] at hm
      subst hm
      exact ht.hp)
  rw [hstep3] at hw2
  have hw3 := step1_wf_all env
    (if b then applyDefaults { st with heap := upd st.heap f (settledState r0) } id (.arr lp) else { st with heap := upd st.heap f (settledState r0) })
    (.settleT p (.ok (.arr lp)))
    hw2.1
    (by
      show p < (if b then applyDefaults { st with heap := upd st.heap f (settledState r0) } id (.arr lp) else { st with heap := upd st.heap f (settledState r0) }).nextId
      rw [hn2]
      exact ht.hp)
  rw [hstep4] at hw3
  have hrun := run_wf_all k env _ (ls.map (.fireT (.ok (.arr lp)))) hw3.1 hw3.2.2.1
  refine hrun.2 p (.arr lp) ?_
  show upd (if b then applyDefaults { st with heap := upd st.heap f (settledState r0) } id (.arr lp) else { st with heap := upd st.heap f (settledState r0) }).heap p (.fulfilled (.arr lp)) p = _
  rw [upd_self]

theorem faDone_resolves (env : Env) (st : St) (p f : Nat) (id : String) (b : Bool)
    (lp : List Preset) (ht : Tracks st p f id b lp) (fuel : Nat) (hfuel : 4 ≤ fuel)
    (ok : Bool) :
    (run fuel env st [.faDoneT id ok]).heap p = .fulfilled (.arr lp) := by
  obtain ⟨k, rfl⟩ : ∃ k, fuel = k + 4 := ⟨fuel - 4, by omega⟩
  have hstep1 : step1 env st (.faDoneT id ok)
      = (st, [.settleT f (if ok then .ok .undefined else .error .other)]) := by
    simp [step1, ht.faSelf]
  have e1 : run (k + 4) env st [.faDoneT id ok]
      = run (k + 3) env st [.settleT f (if ok then .ok .undefined else .error .other)] := by
    rw [run_cons_step _ _ _ _ _ (by omega), hstep1]
    rfl
  rw [e1]
  exact faDone_settle_aux env st p f id b lp ht k _

/-- C6: calling `getPresets(id)` on a fresh manager (no prior cache entry)
triggers `initPreset` and returns the newly created future (promise 0); under
any subsequent events that do not include the completion of the
feature-action load for `id`, that future is still pending; and as soon as
the feature-action load for `id` completes — successfully or not — the future
resolves with the layer's preset list. -/
theorem getPresets_resolves_after_feature_actions (env : Env) (s0 : Settings)
    (id : String) (b : Bool) (evs : List Ev) (hevs : ∀ o, Ev.faE id o ∉ evs)
    (fuel : Nat) (hfuel : 4 ≤ fuel) (ok : Bool) :
    (getPresets env (initSt s0) id b).2 = some 0
    ∧ (getPresets env (initSt s0) id b).1 = initPreset env (initSt s0) id b
    ∧ ((runEvents fuel env (getPresets env (initSt s0) id b).1 evs).heap 0).isPending
        = true
    ∧ (runEvents fuel env
        (runEvents fuel env (getPresets env (initSt s0) id b).1 evs)
        [.faE id ok]).heap 0
      = .fulfilled (.arr (initLayerPresets env (initSt s0) id)) := by
  have hti := tracks_init env s0 id b
  have ht2 := runEvents_tracks fuel env 0 1 id b (initLayerPresets env (initSt s0) id)
    evs ((getPresets env (initSt s0) id b).1) hti.1 hevs
  refine ⟨hti.2.1, hti.2.2, ?_, ?_⟩
  · rcases ht2.pstate with ⟨ls, hls⟩
    rw [hls]
    rfl
  · show (run fuel env (runEvents fuel env (getPresets env (initSt s0) id b).1 evs)
        [.faDoneT id ok]).heap 0 = _
    exact faDone_resolves env _ 0 1 id b _ ht2 fuel hfuel ok

/-- Witness for C6 at a concrete environment, settings store and script. -/
theorem getPresets_resolves_after_feature_actions_witness :
    (getPresets demoEnv (initSt demoSettings) "layer1" true).2 = some 0
    ∧ (getPresets demoEnv (initSt demoSettings) "layer1" true).1
        = initPreset demoEnv (initSt demoSettings) "layer1" true
    ∧ ((runEvents 8 demoEnv (getPresets demoEnv (initSt demoSettings) "layer1" true).1
        [.registerE "t1" "u1", .fetchE "u1"]).heap 0).isPending = true
    ∧ (runEvents 8 demoEnv
        (runEvents 8 demoEnv (getPresets demoEnv (initSt demoSettings) "layer1" true).1
          [.registerE "t1" "u1", .fetchE "u1"])
        [.faE "layer1" true]).heap 0
      = .fulfilled (.arr (initLayerPresets demoEnv (initSt demoSettings) "layer1")) :=
  getPresets_resolves_after_feature_actions demoEnv demoSettings "layer1" true
    [.registerE "t1" "u1", .fetchE "u1"] (by decide) 8 (by decide) true

end LayerPreset
